import Mathlib

/-!
# Envelope codecs and key derivation of `lib.loki_crypt.js`

A shallow embedding of the functions exported by `lib.loki_crypt.js`.

* Byte buffers (`Buffer`, `Uint8Array`, `ArrayBuffer`) are lists of naturals.
* A function that can throw returns `Except`. The file has no `throw` of its
  own: an error is the one of the library call that threw (type `ε`), or the
  `RangeError` of a typed-array write.
* The `async` functions are embedded as ordinary functions: none of them
  suspends between its first and its last statement.
* The external libraries (`crypto`, `libsignal`, `bytebuffer`) are interfaces:
  structures of functions, one field per call the file makes.
* A draw `crypto.randomBytes(n)` is an extra argument holding the bytes that
  were drawn. The draw `libsignal.crypto.getRandomBytes(n)` is a call of the
  library, which throws where the library has no such function.
* A JavaScript string is a `String`. The strings put out here come from a
  UTF-8 decoder or a base64 encoder, which put out no lone surrogate; a text
  handed in by a caller is taken to hold none.
* A field that `getSigData` appends without calling a method on it is a
  `JsValue`; a field on which it calls `trim` is a `String`.
-/

namespace LokiCrypt

/-- A byte buffer. -/
abbrev Bytes := List Nat

/-- `const IV_LENGTH = 16;` -/
def IV_LENGTH : Nat := 16

/-- `const NONCE_LENGTH = 12;` -/
def NONCE_LENGTH : Nat := 12

/-- `const TAG_LENGTH = 16;` -/
def TAG_LENGTH : Nat := 16

/-! ## Buffers -/

/-- Index clamping of `slice`: a negative offset counts from the end, and the
result is clamped to `0 .. length`. -/
def adjustOffset (offset : Int) (length : Nat) : Nat :=
  if offset < 0 then (offset + (length : Int)).toNat
  else min offset.toNat length

/-- The method `buf.slice(start, end)` of a buffer. -/
def slice (buf : Bytes) (start stop : Int) : Bytes :=
  let s := adjustOffset start buf.length
  let e := adjustOffset stop buf.length
  (buf.drop s).take (e - s)

/-- The method `buf.slice(start)` of a buffer: the end defaults to the length. -/
def sliceFrom (buf : Bytes) (start : Int) : Bytes :=
  let s := adjustOffset start buf.length
  (buf.drop s).take (buf.length - s)

/-- The constructor `new Uint8Array(n)`: `n` zero bytes. -/
def newUint8Array (n : Nat) : Bytes := List.replicate n 0

/-- The method `dst.set(src, offset)` of a typed array: `src` is copied over
`dst` from index `offset` on; a `RangeError` (here `none`) when it does not fit. -/
def typedArraySet (dst src : Bytes) (offset : Nat) : Option Bytes :=
  if offset + src.length ≤ dst.length then
    some (dst.take offset ++ src ++ dst.drop (offset + src.length))
  else none

/-! ## UTF-8 text -/

/-- The replacement character U+FFFD. -/
def REPLACEMENT : Char := Char.ofNat 0xFFFD

/-- A multi-byte sequence under way in the UTF-8 decoder. -/
structure Utf8Pending where
  codePoint : Nat
  bytesNeeded : Nat
  lower : Nat
  upper : Nat
deriving DecidableEq, Repr

/-- The decoder on the first byte of a sequence. -/
def utf8Start (b : Nat) : List Char × Option Utf8Pending :=
  if b ≤ 0x7F then ([Char.ofNat b], none)
  else if 0xC2 ≤ b ∧ b ≤ 0xDF then ([], some ⟨b - 0xC0, 1, 0x80, 0xBF⟩)
  else if 0xE0 ≤ b ∧ b ≤ 0xEF then
    ([], some ⟨b - 0xE0, 2, if b = 0xE0 then 0xA0 else 0x80, if b = 0xED then 0x9F else 0xBF⟩)
  else if 0xF0 ≤ b ∧ b ≤ 0xF4 then
    ([], some ⟨b - 0xF0, 3, if b = 0xF0 then 0x90 else 0x80, if b = 0xF4 then 0x8F else 0xBF⟩)
  else ([REPLACEMENT], none)

/-- One byte through the UTF-8 decoder: the characters it emits and the
sequence left under way. A byte that cannot continue the sequence under way
ends it with U+FFFD and is then read as a first byte. -/
def utf8Step (st : Option Utf8Pending) (b : Nat) : List Char × Option Utf8Pending :=
  match st with
  | none => utf8Start b
  | some p =>
    if p.lower ≤ b ∧ b ≤ p.upper then
      let cp := p.codePoint * 64 + (b - 0x80)
      if p.bytesNeeded = 1 then ([Char.ofNat cp], none)
      else ([], some ⟨cp, p.bytesNeeded - 1, 0x80, 0xBF⟩)
    else
      let r := utf8Start b
      (REPLACEMENT :: r.1, r.2)

/-- The UTF-8 decoder over a buffer, from a given state. -/
def utf8Run : Option Utf8Pending → Bytes → List Char × Option Utf8Pending
  | st, [] => ([], st)
  | st, b :: bs =>
    let r := utf8Step st b
    let q := utf8Run r.2 bs
    (r.1 ++ q.1, q.2)

/-- UTF-8 decoding of a whole buffer, as the engine does it: every ill-formed
part becomes U+FFFD, an unfinished last character included. -/
def utf8DecodeAll (buf : Bytes) : List Char :=
  let r := utf8Run none buf
  r.1 ++ (if r.2.isSome then [REPLACEMENT] else [])

/-- The scan of `StringDecoder` backwards over the end of a chunk, for the
bytes it holds back as the start of a character still to be finished. The
list is the chunk reversed, from the byte under the scan on; `buffered` counts
the bytes passed so far. A continuation byte is passed, unless it is the fourth
or the first of the chunk. Any other byte ends the scan: by its high bits it
asks for 2, 3 or 4 bytes, or for none, and the bytes passed are held back when
they are fewer. -/
def utf8HeldBackScan : Nat → List Nat → Nat
  | _, [] => 0
  | buffered, b :: more =>
    if 0x80 ≤ b ∧ b < 0xC0 then
      if 4 ≤ buffered + 1 ∨ more.isEmpty then 0 else utf8HeldBackScan (buffered + 1) more
    else
      let missing :=
        if 0xC0 ≤ b ∧ b < 0xE0 then 2
        else if 0xE0 ≤ b ∧ b < 0xF0 then 3
        else if 0xF0 ≤ b ∧ b < 0xF8 then 4
        else 0
      if missing ≤ buffered + 1 then 0 else buffered + 1

/-- The number of bytes at the end of a chunk that a fresh `StringDecoder`
holds back: none when the chunk is empty or ends in an ASCII byte. -/
def utf8HeldBack (buf : Bytes) : Nat :=
  match buf.reverse with
  | [] => 0
  | last :: more => if 0x80 ≤ last then utf8HeldBackScan 0 (last :: more) else 0

/-- What a fresh `StringDecoder('utf8')` returns from `write(buf)`: the bytes
at the end that may start a character still to be finished stay in the decoder,
and the bytes before them are decoded as a whole. -/
def decoderWrite (buf : Bytes) : String :=
  String.mk (utf8DecodeAll (buf.take (buf.length - utf8HeldBack buf)))

/-- The method `buf.toString()` of a `Buffer`: UTF-8 decoding of the whole
buffer. -/
def bufferToString (buf : Bytes) : String :=
  String.mk (utf8DecodeAll buf)

/-- UTF-8 encoding of one character. -/
def utf8EncodeChar (c : Char) : Bytes :=
  let n := c.toNat
  if n < 0x80 then [n]
  else if n < 0x800 then [0xC0 + n / 64, 0x80 + n % 64]
  else if n < 0x10000 then [0xE0 + n / 4096, 0x80 + n / 64 % 64, 0x80 + n % 64]
  else [0xF0 + n / 262144, 0x80 + n / 4096 % 64, 0x80 + n / 64 % 64, 0x80 + n % 64]

/-- UTF-8 encoding of a text. -/
def utf8EncodeChars : List Char → Bytes
  | [] => []
  | c :: cs => utf8EncodeChar c ++ utf8EncodeChars cs

/-- UTF-8 encoding of a string, `Buffer.from(s, 'utf8')`. -/
def utf8Encode (s : String) : Bytes := utf8EncodeChars s.data

/-! ## Codec B: AES-256-GCM through `crypto` -/

/-- The calls of Node's `crypto` module made by the GCM codec. A cipher object
is a state of type `γ`, a decipher object a state of type `δ`; every call may
throw an error of type `ε`. -/
structure NodeCrypto (ε γ δ : Type) where
  /-- The call `crypto.createCipheriv(algorithm, key, iv)`. -/
  createCipheriv : String → Bytes → Bytes → Except ε γ
  /-- The call `cipher.update(data)`: the new state and the bytes put out. -/
  cipherUpdate : γ → Bytes → Except ε (γ × Bytes)
  /-- The call `cipher.final()`. -/
  cipherFinal : γ → Except ε (γ × Bytes)
  /-- The call `cipher.getAuthTag()`. -/
  getAuthTag : γ → Except ε Bytes
  /-- The call `crypto.createDecipheriv(algorithm, key, iv)`. -/
  createDecipheriv : String → Bytes → Bytes → Except ε δ
  /-- The call `decipher.setAuthTag(tag)`. -/
  setAuthTag : δ → Bytes → Except ε δ
  /-- The call `decipher.update(data)`, before any text decoding. -/
  decipherUpdate : δ → Bytes → Except ε (δ × Bytes)
  /-- The call `decipher.final()`, which verifies the tag. -/
  decipherFinal : δ → Except ε (δ × Bytes)

variable {ε γ δ : Type}

/-- The function `encryptGCM(symmetricKey, plaintextEnc)`; `nonce` is what
`crypto.randomBytes(NONCE_LENGTH)` returned. -/
def encryptGCM (N : NodeCrypto ε γ δ) (symmetricKey plaintextEnc nonce : Bytes) :
    Except ε Bytes := do
  let cipher ← N.createCipheriv "aes-256-gcm" symmetricKey nonce
  let (cipher, updated) ← N.cipherUpdate cipher plaintextEnc
  let (cipher, final) ← N.cipherFinal cipher
  let ciphertext := updated ++ final
  let tag ← N.getAuthTag cipher
  let finalBuf := nonce ++ ciphertext ++ tag
  return finalBuf

/-- The three slices `decryptGCM` takes from its argument: nonce, ciphertext,
tag. -/
def gcmSlices (ivCiphertextAndTag : Bytes) : Bytes × Bytes × Bytes :=
  let byteLength : Int := ivCiphertextAndTag.length
  let nonce := slice ivCiphertextAndTag 0 NONCE_LENGTH
  let ciphertext := slice ivCiphertextAndTag NONCE_LENGTH (byteLength - TAG_LENGTH)
  let tag := sliceFrom ivCiphertextAndTag (byteLength - TAG_LENGTH)
  (nonce, ciphertext, tag)

/-- The function `decryptGCM(symmetricKey, ivCiphertextAndTag)`. The result is
a string: `update` decodes its output as UTF-8, and `+` appends the string
form of the buffer returned by `final()`. -/
def decryptGCM (N : NodeCrypto ε γ δ) (symmetricKey ivCiphertextAndTag : Bytes) :
    Except ε String := do
  let (nonce, ciphertext, tag) := gcmSlices ivCiphertextAndTag
  let decipher ← N.createDecipheriv "aes-256-gcm" symmetricKey nonce
  let decipher ← N.setAuthTag decipher tag
  let (decipher, updated) ← N.decipherUpdate decipher ciphertext
  let text := decoderWrite updated
  let (_, final) ← N.decipherFinal decipher
  return text ++ bufferToString final

/-- The primitive `AES-256-GCM-Encrypt(key, nonce, plaintext)` as the library
computes it: create the cipher, `update`, `final`, `getAuthTag`. The result is
the ciphertext (what `update` and `final` put out) and the tag. -/
def aes256gcmEncrypt (N : NodeCrypto ε γ δ) (key nonce plaintext : Bytes) :
    Except ε (Bytes × Bytes) := do
  let cipher ← N.createCipheriv "aes-256-gcm" key nonce
  let (cipher, updated) ← N.cipherUpdate cipher plaintext
  let (cipher, final) ← N.cipherFinal cipher
  let tag ← N.getAuthTag cipher
  return (updated ++ final, tag)

/-- The primitive `AES-256-GCM-Decrypt(key, nonce, ciphertext, tag)` as the
library computes it: create the decipher, `setAuthTag`, `update`, `final`. The
result is what `update` put out and what `final` put out. -/
def aes256gcmDecrypt (N : NodeCrypto ε γ δ) (key nonce ciphertext tag : Bytes) :
    Except ε (Bytes × Bytes) := do
  let decipher ← N.createDecipheriv "aes-256-gcm" key nonce
  let decipher ← N.setAuthTag decipher tag
  let (decipher, updated) ← N.decipherUpdate decipher ciphertext
  let (_, final) ← N.decipherFinal decipher
  return (updated, final)

/-! ## Codec A: the `libsignal` cipher, and its base64 text form -/

/-- What a function of this file can throw: a `RangeError` of a typed array,
or whatever a library call threw. -/
inductive Thrown (ε : Type) where
  | rangeError : Thrown ε
  | library (e : ε) : Thrown ε
deriving DecidableEq, Repr

/-- A library call inside a function that can also throw a `RangeError`. -/
def liftLibrary {α : Type} : Except ε α → Except (Thrown ε) α
  | .ok a => .ok a
  | .error e => .error (.library e)

/-- A typed-array call inside such a function. -/
def liftRange {α : Type} : Option α → Except (Thrown ε) α
  | some a => .ok a
  | none => .error .rangeError

/-- The calls of `libsignal.crypto` made by codec A, arguments in the order of
the library: key, data, iv. -/
structure SignalCrypto (ε : Type) where
  /-- The call `libsignal.crypto.encrypt(key, data, iv)`. -/
  encrypt : Bytes → Bytes → Bytes → Except ε Bytes
  /-- The call `libsignal.crypto.decrypt(key, data, iv)`. -/
  decrypt : Bytes → Bytes → Bytes → Except ε Bytes

/-- The calls of `bytebuffer` made by the base64 wrappers. -/
structure ByteBufferLib (ε : Type) where
  /-- The expression `bb.wrap(buf).toString('base64')`. -/
  toBase64 : Bytes → String
  /-- The expression `bb.wrap(str, 'base64').toArrayBuffer()`. -/
  fromBase64 : String → Except ε Bytes

/-- The random source of `libsignal.crypto`. -/
structure SignalRandom (ε : Type) where
  /-- The call `libsignal.crypto.getRandomBytes(n)`. -/
  getRandomBytes : Nat → Except ε Bytes

/-- The function `DHEncrypt(symmetricKey, plainText)`. -/
def DHEncrypt (R : SignalRandom ε) (S : SignalCrypto ε) (symmetricKey plainText : Bytes) :
    Except (Thrown ε) Bytes := do
  let iv ← liftLibrary (R.getRandomBytes IV_LENGTH)
  let ciphertext ← liftLibrary (S.encrypt symmetricKey plainText iv)
  let ivAndCiphertext := newUint8Array (iv.length + ciphertext.length)
  let ivAndCiphertext ← liftRange (typedArraySet ivAndCiphertext iv 0)
  let ivAndCiphertext ← liftRange (typedArraySet ivAndCiphertext ciphertext iv.length)
  return ivAndCiphertext

/-- The function `DHDecrypt(symmetricKey, ivAndCiphertext)`. -/
def DHDecrypt (S : SignalCrypto ε) (symmetricKey ivAndCiphertext : Bytes) :
    Except ε Bytes :=
  let iv := slice ivAndCiphertext 0 IV_LENGTH
  let ciphertext := sliceFrom ivAndCiphertext IV_LENGTH
  S.decrypt symmetricKey ciphertext iv

/-- The function `DHEncrypt64(symmetricKey, plainText)`; `iv` is what
`crypto.randomBytes(IV_LENGTH)` returned. -/
def DHEncrypt64 (S : SignalCrypto ε) (B : ByteBufferLib ε)
    (symmetricKey plainText iv : Bytes) : Except (Thrown ε) String := do
  let ciphertext ← liftLibrary (S.encrypt symmetricKey plainText iv)
  let ivAndCiphertext := newUint8Array (iv.length + ciphertext.length)
  let ivAndCiphertext ← liftRange (typedArraySet ivAndCiphertext iv 0)
  let ivAndCiphertext ← liftRange (typedArraySet ivAndCiphertext ciphertext iv.length)
  return B.toBase64 ivAndCiphertext

/-- The function `DHDecrypt64(symmetricKey, cipherText64)`. -/
def DHDecrypt64 (S : SignalCrypto ε) (B : ByteBufferLib ε)
    (symmetricKey : Bytes) (cipherText64 : String) : Except ε Bytes := do
  let ivAndCiphertext ← B.fromBase64 cipherText64
  let iv := slice ivAndCiphertext 0 IV_LENGTH
  let ciphertext := sliceFrom ivAndCiphertext IV_LENGTH
  S.decrypt symmetricKey ciphertext iv

/-! ## Key derivation -/

/-- The calls of `libsignal.curve` made by the key derivation. -/
structure SignalCurve (ε : Type) where
  /-- The call `libsignal.curve.calculateAgreement(pubKey, privKey)`. -/
  calculateAgreement : Bytes → Bytes → Except ε Bytes

/-- The HMAC of Node's `crypto` module. -/
structure NodeHmac where
  /-- The expression `crypto.createHmac(algorithm, key).update(data).digest()`,
  the string key already turned into its UTF-8 bytes. -/
  hmacDigest : String → Bytes → Bytes → Bytes

/-- The function `makeSymmetricKey(privKey, pubKey)`. -/
def makeSymmetricKey (C : SignalCurve ε) (H : NodeHmac) (privKey pubKey : Bytes) :
    Except ε Bytes := do
  let keyAgreement ← C.calculateAgreement pubKey privKey
  let hashedSymmetricKeyBuf := H.hmacDigest "sha256" (utf8Encode "LOKI") keyAgreement
  return hashedSymmetricKeyBuf

/-! ## Message signature -/

/-- A JavaScript value, of the kinds a signed field can hold. A number is a
safe integer, from `-(2 ^ 53 - 1)` to `2 ^ 53 - 1`: these are the integers that
JavaScript holds exactly and prints digit by digit. -/
inductive JsValue where
  | undefined
  | null
  | boolean (b : Bool)
  | number (n : Int)
  | string (s : String)
deriving DecidableEq, Repr

/-- The string form of a safe integer: its decimal digits, `-` in front of
a negative one. -/
def numberToString (n : Int) : String :=
  if n < 0 then String.mk ('-' :: Nat.toDigits 10 n.natAbs)
  else String.mk (Nat.toDigits 10 n.natAbs)

/-- The string that `+=` appends for a value. -/
def JsValue.toJsString : JsValue → String
  | .undefined => "undefined"
  | .null => "null"
  | .boolean true => "true"
  | .boolean false => "false"
  | .number n => numberToString n
  | .string s => s

/-- The outcome of a value as the condition of an `if`. -/
def JsValue.truthy : JsValue → Bool
  | .undefined => false
  | .null => false
  | .boolean b => b
  | .number n => n != 0
  | .string s => s != ""

/-- White space and line terminators of JavaScript, which `trim` removes. -/
def isJsWhitespace (c : Char) : Bool :=
  let n := c.toNat
  n == 0x09 || n == 0x0A || n == 0x0B || n == 0x0C || n == 0x0D || n == 0x20 || n == 0xA0 ||
    n == 0x1680 || (0x2000 ≤ n && n ≤ 0x200A) || n == 0x2028 || n == 0x2029 || n == 0x202F ||
    n == 0x205F || n == 0x3000 || n == 0xFEFF

/-- The method `str.trim()`. -/
def jsTrim (s : String) : String :=
  String.mk ((s.data.dropWhile isJsWhitespace).reverse.dropWhile isJsWhitespace).reverse

/-- The object `noteValue.quote`; `trim` is called on its `text`. -/
structure Quote where
  id : JsValue
  author : JsValue
  text : String
deriving DecidableEq, Repr

/-- The argument `noteValue`; `quote` is `none` when the field is missing or
`null`. -/
structure NoteValue where
  timestamp : JsValue
  quote : Option Quote
deriving DecidableEq, Repr

/-- The argument `adnMessage`; `trim` is called on its `text`. -/
structure AdnMessage where
  text : String
  reply_to : JsValue
deriving DecidableEq, Repr

/-- The calls of `libsignal.curve` made by the signature. -/
structure SignalSignature (ε : Type) where
  /-- The call `libsignal.curve.calculateSignature(privKey, message)`. -/
  calculateSignature : Bytes → Bytes → Except ε Bytes

/-- The hexadecimal digit of a 4-bit value, in lower case. -/
def hexDigit (n : Nat) : Char := "0123456789abcdef".data.getD n '0'

/-- The hexadecimal digits of a buffer, two for each byte. -/
def hexChars : Bytes → List Char
  | [] => []
  | b :: bs => hexDigit (b / 16 % 16) :: hexDigit (b % 16) :: hexChars bs

/-- The method `buf.toString('hex')` of a `Buffer`. -/
def bufferToHex (buf : Bytes) : String := String.mk (hexChars buf)

/-- The value of the variable `sigString` of `getSigData` when it is encoded:
the statements of `getSigData` from `let sigString = ''` to
`sigString += sigVer`. -/
def sigString (sigVer : JsValue) (noteValue : NoteValue) (adnMessage : AdnMessage) :
    String := Id.run do
  let mut sigString := ""
  sigString := sigString ++ jsTrim adnMessage.text
  sigString := sigString ++ noteValue.timestamp.toJsString
  if let some quote := noteValue.quote then
    sigString := sigString ++ quote.id.toJsString
    sigString := sigString ++ quote.author.toJsString
    sigString := sigString ++ jsTrim quote.text
    if adnMessage.reply_to.truthy then
      sigString := sigString ++ adnMessage.reply_to.toJsString
  sigString := sigString ++ sigVer.toJsString
  return sigString

/-- The function `getSigData(sigVer, privKey, noteValue, adnMessage)`. -/
def getSigData (S : SignalSignature ε) (sigVer : JsValue) (privKey : Bytes)
    (noteValue : NoteValue) (adnMessage : AdnMessage) : Except ε String := do
  let mut sigString := ""
  sigString := sigString ++ jsTrim adnMessage.text
  sigString := sigString ++ noteValue.timestamp.toJsString
  if let some quote := noteValue.quote then
    sigString := sigString ++ quote.id.toJsString
    sigString := sigString ++ quote.author.toJsString
    sigString := sigString ++ jsTrim quote.text
    if adnMessage.reply_to.truthy then
      sigString := sigString ++ adnMessage.reply_to.toJsString
  sigString := sigString ++ sigVer.toJsString
  let sigData := utf8Encode sigString
  let sig ← S.calculateSignature privKey sigData
  return bufferToHex sig

/-- A buffer with bit `j` of its byte `i` flipped. -/
def flipBit : Bytes → Nat → Nat → Bytes
  | [], _, _ => []
  | b :: bs, 0, j => (b ^^^ 2 ^ j) :: bs
  | b :: bs, i + 1, j => b :: flipBit bs i j

/-! ## Executable instances of the interfaces

Small stand-ins for the libraries, to run the functions above on concrete
inputs. They keep the shape of the real calls (what is checked, what is
thrown, which call puts out which bytes) with toy arithmetic in place of AES,
SHA-256 and the curve. -/

/-- Errors of the stand-in libraries. -/
inductive ToyError where
  | unknownCipher
  | invalidKeyLength
  | invalidIV
  | invalidTagLength
  | unsupportedState
  | unableToAuthenticate
  | illegalBase64
  | badDecrypt
  | notAFunction
deriving DecidableEq, Repr

/-- State of a stand-in cipher or decipher object. -/
structure ToyCipher where
  key : Bytes
  iv : Bytes
  seen : Bytes
  tag : Option Bytes
  finalized : Bool
deriving DecidableEq, Repr

/-- Keystream byte of the stand-in cipher. -/
def toyShift (key iv : Bytes) : Nat := (key.sum + iv.sum) % 256

/-- Tag of the stand-in cipher: 16 checksum bytes over key, iv and ciphertext. -/
def toyTag (key iv ciphertext : Bytes) : Bytes :=
  (List.range 16).map fun j => (key.sum + iv.sum + ciphertext.sum + ciphertext.length + j) % 256

/-- Creation of a stand-in cipher object: only `aes-256-gcm`, a 32-byte key and
a non-empty iv are accepted. -/
def toyCreate (algorithm : String) (key iv : Bytes) : Except ToyError ToyCipher :=
  if algorithm ≠ "aes-256-gcm" then .error .unknownCipher
  else if key.length ≠ 32 then .error .invalidKeyLength
  else if iv.length = 0 then .error .invalidIV
  else .ok ⟨key, iv, [], none, false⟩

/-- A stand-in for AES-256-GCM in `crypto`. -/
def toyGcm : NodeCrypto ToyError ToyCipher ToyCipher where
  createCipheriv := toyCreate
  cipherUpdate := fun c data =>
    if c.finalized then .error .unsupportedState
    else
      let out := data.map fun b => (b + toyShift c.key c.iv) % 256
      .ok (⟨c.key, c.iv, c.seen ++ out, c.tag, false⟩, out)
  cipherFinal := fun c =>
    if c.finalized then .error .unsupportedState
    else .ok (⟨c.key, c.iv, c.seen, some (toyTag c.key c.iv c.seen), true⟩, [])
  getAuthTag := fun c =>
    match c.tag with
    | some t => .ok t
    | none => .error .unsupportedState
  createDecipheriv := toyCreate
  setAuthTag := fun d tag =>
    if tag.length ≠ 16 then .error .invalidTagLength
    else .ok ⟨d.key, d.iv, d.seen, some tag, d.finalized⟩
  decipherUpdate := fun d data =>
    if d.finalized then .error .unsupportedState
    else
      let out := data.map fun b => (b + 256 - toyShift d.key d.iv) % 256
      .ok (⟨d.key, d.iv, d.seen ++ data, d.tag, false⟩, out)
  decipherFinal := fun d =>
    if d.finalized then .error .unsupportedState
    else if d.tag = some (toyTag d.key d.iv d.seen) then
      .ok (⟨d.key, d.iv, d.seen, d.tag, true⟩, [])
    else .error .unableToAuthenticate

/-- PKCS#7 padding to a multiple of 16 bytes. -/
def pkcs7Pad (data : Bytes) : Bytes :=
  let n := 16 - data.length % 16
  data ++ List.replicate n n

/-- Removal of PKCS#7 padding; `none` when the padding is not well formed. -/
def pkcs7Unpad (data : Bytes) : Option Bytes :=
  match data.getLast? with
  | none => none
  | some n =>
    if 1 ≤ n ∧ n ≤ 16 ∧ n ≤ data.length ∧ data.drop (data.length - n) = List.replicate n n then
      some (data.take (data.length - n))
    else none

/-- Bytewise exclusive or of two blocks. -/
def xorBytes (a b : Bytes) : Bytes := List.zipWith (fun x y => x ^^^ y) a b

/-- The block cipher of the stand-in: every byte shifted by the key. -/
def toyBlockEncrypt (key block : Bytes) : Bytes :=
  block.map fun b => (b + (key.sum + 7) % 256) % 256

/-- The inverse of `toyBlockEncrypt`. -/
def toyBlockDecrypt (key block : Bytes) : Bytes :=
  block.map fun b => (b + 256 - (key.sum + 7) % 256) % 256

/-- CBC encryption of padded data, block by block: a block is mixed with the
ciphertext block before it (the iv for the first) and then encrypted. -/
def cbcEncrypt : Nat → Bytes → Bytes → Bytes → Bytes
  | 0, _, _, _ => []
  | fuel + 1, key, previous, data =>
    if data.isEmpty then []
    else
      let block := toyBlockEncrypt key (xorBytes (data.take 16) previous)
      block ++ cbcEncrypt fuel key block (data.drop 16)

/-- CBC decryption, block by block: a block is decrypted and then mixed with
the ciphertext block before it (the iv for the first). -/
def cbcDecrypt : Nat → Bytes → Bytes → Bytes → Bytes
  | 0, _, _, _ => []
  | fuel + 1, key, previous, data =>
    if data.isEmpty then []
    else
      xorBytes (toyBlockDecrypt key (data.take 16)) previous
        ++ cbcDecrypt fuel key (data.take 16) (data.drop 16)

/-- A stand-in for `libsignal.crypto`: CBC chaining with PKCS#7 padding over a
toy block cipher, and no integrity check, as the AES-256-CBC of the library;
keys of 32 and ivs of 16 bytes only. -/
def toySignal : SignalCrypto ToyError where
  encrypt := fun key data iv =>
    if key.length ≠ 32 then .error .invalidKeyLength
    else if iv.length ≠ 16 then .error .invalidIV
    else .ok (cbcEncrypt (pkcs7Pad data).length key iv (pkcs7Pad data))
  decrypt := fun key data iv =>
    if key.length ≠ 32 then .error .invalidKeyLength
    else if iv.length ≠ 16 then .error .invalidIV
    else if data.length = 0 ∨ data.length % 16 ≠ 0 then .error .badDecrypt
    else
      match pkcs7Unpad (cbcDecrypt data.length key iv data) with
      | some plain => .ok plain
      | none => .error .badDecrypt

/-- The random source of `libsignal` as `require('libsignal')` loads it on
Node: its `crypto` has no `getRandomBytes` (the comment in `encryptGCM` over the
same call: "not on the node side"), and the call throws a `TypeError`. -/
def nodeSignalRandom : SignalRandom ToyError where
  getRandomBytes := fun _ => .error .notAFunction

/-- A random source that has `getRandomBytes`, as the browser build of the
library: here it returns the bytes 0, 1, 2, and so on. -/
def countingSignalRandom : SignalRandom ToyError where
  getRandomBytes := fun n => .ok (List.range n)

/-- A `libsignal.crypto` that refuses every call and reports, as its error,
the arguments it was called with (key, data, iv). -/
def probeSignal : SignalCrypto (Bytes × Bytes × Bytes) where
  encrypt := fun key data iv => .error (key, data, iv)
  decrypt := fun key data iv => .error (key, data, iv)

/-- The base64 alphabet. -/
def base64Alphabet : List Char :=
  "ABCDEFGHIJKLMNOPQRSTUVWXYZabcdefghijklmnopqrstuvwxyz0123456789+/".data

/-- The base64 digit of a 6-bit value. -/
def base64Digit (n : Nat) : Char := base64Alphabet.getD n 'A'

/-- The 6-bit value of a base64 digit. -/
def base64Value (c : Char) : Option Nat :=
  let i := base64Alphabet.indexOf c
  if i < 64 then some i else none

/-- Base64 encoding with padding. -/
def base64Encode : Bytes → List Char
  | [] => []
  | [a] => [base64Digit (a / 4), base64Digit (a % 4 * 16), '=', '=']
  | [a, b] =>
    [base64Digit (a / 4), base64Digit (a % 4 * 16 + b / 16), base64Digit (b % 16 * 4), '=']
  | a :: b :: c :: rest =>
    base64Digit (a / 4) :: base64Digit (a % 4 * 16 + b / 16) ::
      base64Digit (b % 16 * 4 + c / 64) :: base64Digit (c % 64) :: base64Encode rest

/-- Base64 decoding of padded text; `none` on anything else. -/
def base64Decode : List Char → Option Bytes
  | [] => some []
  | [w, x, '=', '='] => do
    let a ← base64Value w
    let b ← base64Value x
    some [a * 4 + b / 16]
  | [w, x, y, '='] => do
    let a ← base64Value w
    let b ← base64Value x
    let c ← base64Value y
    some [a * 4 + b / 16, b % 16 * 16 + c / 4]
  | w :: x :: y :: z :: rest => do
    let a ← base64Value w
    let b ← base64Value x
    let c ← base64Value y
    let d ← base64Value z
    let tail ← base64Decode rest
    some ((a * 4 + b / 16) :: (b % 16 * 16 + c / 4) :: (c % 4 * 64 + d) :: tail)
  | _ => none

/-- A stand-in for the base64 calls of `bytebuffer`. -/
def toyByteBuffer : ByteBufferLib ToyError where
  toBase64 := fun buf => String.mk (base64Encode buf)
  fromBase64 := fun str =>
    match base64Decode str.data with
    | some buf => .ok buf
    | none => .error .illegalBase64

/-- A stand-in for `libsignal.curve`: 32-byte keys only; the agreement raises
each byte of the public key to the matching byte of the private key, modulo
251. -/
def toyCurve : SignalCurve ToyError where
  calculateAgreement := fun pubKey privKey =>
    if pubKey.length ≠ 32 ∨ privKey.length ≠ 32 then .error .invalidKeyLength
    else .ok (List.zipWith (fun a b => a ^ b % 251) pubKey privKey)

/-- A stand-in for HMAC in `crypto`: 32 checksum bytes for `sha256`. -/
def toyHmac : NodeHmac where
  hmacDigest := fun algorithm key data =>
    if algorithm = "sha256" then
      (List.range 32).map fun j => (key.sum * 31 + data.sum * 7 + data.length + j) % 256
    else []

/-- A stand-in for the signature of `libsignal.curve`: 32-byte keys only; the
signature is the message behind one byte of the key. -/
def toySignature : SignalSignature ToyError where
  calculateSignature := fun privKey message =>
    if privKey.length ≠ 32 then .error .invalidKeyLength
    else .ok (privKey.sum % 256 :: message)

/-- A key of 32 zero bytes. -/
def zeroKey : Bytes := List.replicate 32 0

/-- The nonce 1, 2, .., 12. -/
def sampleNonce : Bytes := [1, 2, 3, 4, 5, 6, 7, 8, 9, 10, 11, 12]

/-- The iv 0, 1, .., 15. -/
def sampleIv : Bytes := [0, 1, 2, 3, 4, 5, 6, 7, 8, 9, 10, 11, 12, 13, 14, 15]

/-- The tag the stand-in cipher gives "hello" under `zeroKey` and `sampleNonce`. -/
def helloTag : Bytes :=
  [237, 238, 239, 240, 241, 242, 243, 244, 245, 246, 247, 248, 249, 250, 251, 252]

/-- The tag the stand-in cipher gives the byte `0xFF` under `zeroKey` and `sampleNonce`. -/
def ffTag : Bytes :=
  [156, 157, 158, 159, 160, 161, 162, 163, 164, 165, 166, 167, 168, 169, 170, 171]

/-- A 16-byte blob that the stand-in cipher accepts under `zeroKey`. -/
def shortBlob : Bytes := [250, 251, 252, 253, 254, 255, 0, 1, 2, 3, 4, 5, 6, 7, 8, 9]

/-- The ciphertext the stand-in `libsignal.crypto` gives "hello" under
`zeroKey` and `sampleIv`: one padded block. -/
def helloCiphertextA : Bytes :=
  [111, 107, 117, 118, 114, 21, 20, 19, 10, 9, 8, 7, 14, 13, 12, 11]

/-- A private key of the stand-in curve. -/
def samplePriv : Bytes := List.range 32

/-- A public key of the stand-in curve. -/
def samplePub : Bytes := List.replicate 32 2

/-- The agreement of `samplePub` and `samplePriv` on the stand-in curve. -/
def sampleAgreement : Bytes :=
  [1, 2, 4, 8, 16, 32, 64, 128, 5, 10, 20, 40, 80, 160, 69, 138, 25, 50, 100, 200, 149, 47, 94,
    188, 125, 250, 249, 247, 243, 235, 219, 187]

/-- Private key of a first key pair on the stand-in curve. -/
def alicePriv : Bytes := List.replicate 32 3

/-- Public key of the first key pair: each byte is `2 ^ 3`. -/
def alicePub : Bytes := List.replicate 32 8

/-- Private key of a second key pair on the stand-in curve. -/
def bobPriv : Bytes := List.replicate 32 5

/-- Public key of the second key pair: each byte is `2 ^ 5`. -/
def bobPub : Bytes := List.replicate 32 32

/-- The ciphertext the stand-in cipher gives the bytes of "é€" under `zeroKey`
and `sampleNonce`. -/
def euroCiphertext : Bytes := [17, 247, 48, 208, 250]

/-- The tag the stand-in cipher gives the bytes of "é€" under `zeroKey` and
`sampleNonce`. -/
def euroTag : Bytes :=
  [85, 86, 87, 88, 89, 90, 91, 92, 93, 94, 95, 96, 97, 98, 99, 100]

/-- The ciphertext the stand-in cipher gives "hello" under `zeroKey` and
`sampleNonce`. -/
def helloCiphertext : Bytes := [182, 179, 186, 186, 189]

/-- The note of the scenario of the specification: timestamp 100, no quote. -/
def plainNote : NoteValue := ⟨.number 100, none⟩

/-- The message of the scenario of the specification: text " hi ", no
`reply_to`. -/
def plainMessage : AdnMessage := ⟨" hi ", .undefined⟩

/-- A note with a quote. -/
def quotingNote : NoteValue := ⟨.number 100, some ⟨.number 7, .string "bob", " q "⟩⟩

/-- A message that replies to message 5. -/
def replyMessage : AdnMessage := ⟨" hi ", .number 5⟩

/-- A message whose `reply_to` is the number 0. -/
def replyZeroMessage : AdnMessage := ⟨" hi ", .number 0⟩

/-! ## Buffers: lemmas -/

theorem adjustOffset_natCast (n len : Nat) : adjustOffset (n : Int) len = min n len := by
  unfold adjustOffset
  rw [if_neg (by omega)]
  simp

theorem adjustOffset_zero (len : Nat) : adjustOffset 0 len = 0 := by
  unfold adjustOffset
  simp

theorem adjustOffset_sub (len k : Nat) :
    adjustOffset ((len : Int) - (k : Int)) len = if k ≤ len then len - k else 2 * len - k := by
  unfold adjustOffset
  split_ifs <;> omega

theorem slice_natCast (buf : Bytes) (a b : Nat) :
    slice buf (a : Int) (b : Int) = (buf.drop (min a buf.length)).take (min b buf.length - min a buf.length) := by
  simp only [slice, adjustOffset_natCast]

theorem slice_zero_natCast (buf : Bytes) (b : Nat) : slice buf 0 (b : Int) = buf.take b := by
  simp only [slice, adjustOffset_natCast, adjustOffset_zero, List.drop_zero, Nat.sub_zero]
  rw [List.take_eq_take]
  simp

theorem sliceFrom_natCast (buf : Bytes) (a : Nat) : sliceFrom buf (a : Int) = buf.drop a := by
  simp only [sliceFrom, adjustOffset_natCast]
  rw [List.take_of_length_le (by simp)]
  by_cases h : a ≤ buf.length
  · rw [Nat.min_eq_left h]
  · rw [Nat.min_eq_right (by omega), List.drop_of_length_le (by omega), List.drop_of_length_le (by omega)]


theorem gcmSlices_general (blob : Bytes) :
    gcmSlices blob
      = (blob.take 12,
         (blob.drop (min 12 blob.length)).take
           ((if 16 ≤ blob.length then blob.length - 16 else 2 * blob.length - 16)
             - min 12 blob.length),
         blob.drop (if 16 ≤ blob.length then blob.length - 16 else 2 * blob.length - 16)) := by
  unfold gcmSlices
  simp only [NONCE_LENGTH, TAG_LENGTH]
  have h1 : slice blob 0 ((12 : Nat) : Int) = blob.take 12 := slice_zero_natCast blob 12
  have h2 : adjustOffset ((blob.length : Int) - ((16 : Nat) : Int)) blob.length
      = if 16 ≤ blob.length then blob.length - 16 else 2 * blob.length - 16 :=
    adjustOffset_sub blob.length 16
  rw [h1]
  simp only [slice, sliceFrom, h2, adjustOffset_natCast]
  congr 2
  rw [List.take_of_length_le]
  simp

theorem gcmSlices_of_le (blob : Bytes) (h : 28 ≤ blob.length) :
    gcmSlices blob
      = (blob.take 12, (blob.drop 12).take (blob.length - 28), blob.drop (blob.length - 16)) := by
  rw [gcmSlices_general, if_pos (by omega), Nat.min_eq_left (by omega)]
  congr 3

theorem gcmSlices_of_lt (blob : Bytes) (h16 : 16 ≤ blob.length) (h : blob.length < 28) :
    gcmSlices blob = (blob.take 12, [], blob.drop (blob.length - 16)) := by
  rw [gcmSlices_general, if_pos h16, Nat.min_eq_left (by omega)]
  congr 2
  rw [show blob.length - 16 - 12 = 0 by omega]
  rfl

theorem gcmSlices_of_lt_16 (blob : Bytes) (h : blob.length < 16) :
    gcmSlices blob
      = (blob.take 12, (blob.take (2 * blob.length - 16)).drop 12,
         blob.drop (2 * blob.length - 16)) := by
  rw [gcmSlices_general, if_neg (by omega)]
  congr 2
  by_cases h12 : 12 ≤ blob.length
  · rw [Nat.min_eq_left h12, List.drop_take]
  · rw [Nat.min_eq_right (by omega), List.drop_of_length_le (by omega), List.take_nil,
      List.drop_of_length_le]
    rw [List.length_take]
    omega

theorem gcmSlices_framed (nonce ciphertext tag : Bytes)
    (hn : nonce.length = 12) (ht : tag.length = 16) :
    gcmSlices (nonce ++ ciphertext ++ tag) = (nonce, ciphertext, tag) := by
  rw [gcmSlices_of_le _ (by simp only [List.length_append]; omega)]
  have e1 : (nonce ++ ciphertext ++ tag).take 12 = nonce := by
    rw [List.append_assoc, List.take_append_of_le_length (by omega), List.take_of_length_le (by omega)]
  have e2 : (nonce ++ ciphertext ++ tag).drop 12 = ciphertext ++ tag := by
    rw [List.append_assoc, ← hn, List.drop_left]
  have e3 : (nonce ++ ciphertext ++ tag).drop ((nonce ++ ciphertext ++ tag).length - 16) = tag := by
    have : (nonce ++ ciphertext ++ tag).length - 16 = (nonce ++ ciphertext).length := by
      simp only [List.length_append]; omega
    rw [this, List.drop_left]
  rw [e1, e2, e3]
  congr 2
  have : (nonce ++ ciphertext ++ tag).length - 28 = ciphertext.length := by
    simp only [List.length_append]; omega
  rw [this, List.take_left]

/-! ## UTF-8: decoding inverts encoding -/

theorem utf8Run_cons (st : Option Utf8Pending) (b : Nat) (bs : Bytes) :
    utf8Run st (b :: bs)
      = ((utf8Step st b).1 ++ (utf8Run (utf8Step st b).2 bs).1,
         (utf8Run (utf8Step st b).2 bs).2) := rfl

/-- The decoder reads the bytes of one encoded character back as that
character and is then in its initial state again. -/
theorem utf8Run_encodeChar (c : Char) (rest : Bytes) :
    utf8Run none (utf8EncodeChar c ++ rest)
      = (c :: (utf8Run none rest).1, (utf8Run none rest).2) := by
  have hv : c.toNat < 0xd800 ∨ (0xdfff < c.toNat ∧ c.toNat < 0x110000) := c.valid
  have hc : Char.ofNat c.toNat = c := Char.ofNat_toNat c
  unfold utf8EncodeChar
  generalize c.toNat = n at hv hc
  subst hc
  by_cases h1 : n < 0x80
  · simp only [h1, if_true, List.cons_append, List.nil_append, utf8Run_cons, utf8Step, utf8Start]
    rw [if_pos (by omega)]
    rfl
  · by_cases h2 : n < 0x800
    · simp only [h1, h2, if_true, if_false, List.cons_append, List.nil_append, utf8Run_cons,
        utf8Step, utf8Start]
      rw [if_neg (by omega), if_pos (by omega)]
      simp only [List.nil_append]
      rw [if_pos (by omega)]
      have e : (0xC0 + n / 64 - 0xC0) * 64 + (0x80 + n % 64 - 0x80) = n := by omega
      simp only [e, if_true]
      rfl
    · by_cases h3 : n < 0x10000
      · simp only [h1, h2, h3, if_true, if_false, List.cons_append, List.nil_append,
          utf8Run_cons, utf8Step, utf8Start]
        rw [if_neg (by omega), if_neg (by omega), if_pos (by omega)]
        simp only [List.nil_append]
        rw [if_pos (by split_ifs <;> omega)]
        simp only [show ¬ (2 = 1) by decide, if_false, List.nil_append]
        rw [if_pos (by omega)]
        have e : ((0xE0 + n / 4096 - 0xE0) * 64 + (0x80 + n / 64 % 64 - 0x80)) * 64
            + (0x80 + n % 64 - 0x80) = n := by omega
        simp only [e, show 2 - 1 = 1 by decide, if_true]
        rfl
      · simp only [h1, h2, h3, if_true, if_false, List.cons_append, List.nil_append,
          utf8Run_cons, utf8Step, utf8Start]
        rw [if_neg (by omega), if_neg (by omega), if_neg (by omega), if_pos (by omega)]
        simp only [List.nil_append]
        rw [if_pos (by split_ifs <;> omega)]
        simp only [show ¬ (3 = 1) by decide, if_false, List.nil_append]
        rw [if_pos (by omega)]
        simp only [show 3 - 1 = 2 by decide, show ¬ (2 = 1) by decide, if_false, List.nil_append]
        rw [if_pos (by omega)]
        have e : (((0xF0 + n / 262144 - 0xF0) * 64 + (0x80 + n / 4096 % 64 - 0x80)) * 64
            + (0x80 + n / 64 % 64 - 0x80)) * 64 + (0x80 + n % 64 - 0x80) = n := by omega
        simp only [e, show 2 - 1 = 1 by decide, if_true]
        rfl

theorem utf8Run_encodeChars (cs : List Char) (rest : Bytes) :
    utf8Run none (utf8EncodeChars cs ++ rest)
      = (cs ++ (utf8Run none rest).1, (utf8Run none rest).2) := by
  induction cs with
  | nil => rfl
  | cons c cs ih =>
    simp only [utf8EncodeChars, List.append_assoc, utf8Run_encodeChar, ih, List.cons_append]

theorem utf8EncodeChars_append (cs ds : List Char) :
    utf8EncodeChars (cs ++ ds) = utf8EncodeChars cs ++ utf8EncodeChars ds := by
  induction cs with
  | nil => rfl
  | cons c cs ih =>
    show utf8EncodeChar c ++ utf8EncodeChars (cs ++ ds)
      = utf8EncodeChar c ++ utf8EncodeChars cs ++ utf8EncodeChars ds
    rw [ih, List.append_assoc]

theorem utf8HeldBackScan_continuation (buffered b : Nat) (more : List Nat)
    (hb : 0x80 ≤ b ∧ b < 0xC0) (h4 : buffered + 1 < 4) (hm : more ≠ []) :
    utf8HeldBackScan buffered (b :: more) = utf8HeldBackScan (buffered + 1) more := by
  rw [utf8HeldBackScan, if_pos hb, if_neg]
  intro h
  rcases h with h | h
  · omega
  · exact hm (List.isEmpty_iff.mp h)

theorem utf8HeldBackScan_lead (buffered b need : Nat) (more : List Nat)
    (hb : ¬ (0x80 ≤ b ∧ b < 0xC0))
    (hneed : (if 0xC0 ≤ b ∧ b < 0xE0 then 2
        else if 0xE0 ≤ b ∧ b < 0xF0 then 3
        else if 0xF0 ≤ b ∧ b < 0xF8 then 4
        else 0) = need)
    (h : need ≤ buffered + 1) :
    utf8HeldBackScan buffered (b :: more) = 0 := by
  rw [utf8HeldBackScan, if_neg hb]
  simp only [hneed]
  rw [if_pos h]

/-- A chunk that ends with a whole encoded character has no byte held back. -/
theorem utf8HeldBack_encodeChar (pre : Bytes) (c : Char) :
    utf8HeldBack (pre ++ utf8EncodeChar c) = 0 := by
  have hv : c.toNat < 0xd800 ∨ (0xdfff < c.toNat ∧ c.toNat < 0x110000) := c.valid
  unfold utf8HeldBack utf8EncodeChar
  generalize c.toNat = n at hv
  by_cases h1 : n < 0x80
  · simp only [h1, if_true, List.reverse_append, List.reverse_cons, List.reverse_nil,
      List.nil_append, List.cons_append]
    rw [if_neg (by omega)]
  · by_cases h2 : n < 0x800
    · simp only [h1, h2, if_true, if_false, List.reverse_append, List.reverse_cons,
        List.reverse_nil, List.nil_append, List.cons_append]
      rw [if_pos (by omega),
        utf8HeldBackScan_continuation _ _ _ (by omega) (by omega) (by simp),
        utf8HeldBackScan_lead _ _ 2 _ (by omega) (by rw [if_pos (by omega)]) (by omega)]
    · by_cases h3 : n < 0x10000
      · simp only [h1, h2, h3, if_true, if_false, List.reverse_append, List.reverse_cons,
          List.reverse_nil, List.nil_append, List.cons_append]
        rw [if_pos (by omega),
          utf8HeldBackScan_continuation _ _ _ (by omega) (by omega) (by simp),
          utf8HeldBackScan_continuation _ _ _ (by omega) (by omega) (by simp),
          utf8HeldBackScan_lead _ _ 3 _ (by omega)
            (by rw [if_neg (by omega), if_pos (by omega)]) (by omega)]
      · simp only [h1, h2, h3, if_true, if_false, List.reverse_append, List.reverse_cons,
          List.reverse_nil, List.nil_append, List.cons_append]
        rw [if_pos (by omega),
          utf8HeldBackScan_continuation _ _ _ (by omega) (by omega) (by simp),
          utf8HeldBackScan_continuation _ _ _ (by omega) (by omega) (by simp),
          utf8HeldBackScan_continuation _ _ _ (by omega) (by omega) (by simp),
          utf8HeldBackScan_lead _ _ 4 _ (by omega)
            (by rw [if_neg (by omega), if_neg (by omega), if_pos (by omega)]) (by omega)]

/-- The UTF-8 bytes of a string have no byte held back. -/
theorem utf8HeldBack_utf8Encode (s : String) : utf8HeldBack (utf8Encode s) = 0 := by
  unfold utf8Encode
  rcases List.eq_nil_or_concat s.data with h | ⟨cs, c, h⟩
  · rw [h]; rfl
  · rw [h, List.concat_eq_append, utf8EncodeChars_append]
    simp only [utf8EncodeChars, List.append_nil]
    exact utf8HeldBack_encodeChar _ c

/-- Writing the UTF-8 bytes of a string to a fresh decoder returns the string. -/
theorem decoderWrite_utf8Encode (s : String) : decoderWrite (utf8Encode s) = s := by
  have h := utf8Run_encodeChars s.data []
  simp only [List.append_nil] at h
  unfold decoderWrite
  rw [utf8HeldBack_utf8Encode, Nat.sub_zero, List.take_length]
  simp [utf8DecodeAll, utf8Encode, h, utf8Run]

theorem bufferToString_nil : bufferToString [] = "" := rfl

/-- The first byte of an encoded character is at most `0xF4`. -/
theorem utf8EncodeChar_head (c : Char) :
    ∃ b bs, utf8EncodeChar c = b :: bs ∧ b ≤ 0xF4 := by
  have hv : c.toNat < 0xd800 ∨ (0xdfff < c.toNat ∧ c.toNat < 0x110000) := c.valid
  unfold utf8EncodeChar
  generalize c.toNat = n at hv
  by_cases h1 : n < 0x80
  · exact ⟨n, [], by simp only [h1, if_true], by omega⟩
  · by_cases h2 : n < 0x800
    · exact ⟨0xC0 + n / 64, [0x80 + n % 64], by simp only [h1, h2, if_true, if_false],
        by omega⟩
    · by_cases h3 : n < 0x10000
      · exact ⟨0xE0 + n / 4096, [0x80 + n / 64 % 64, 0x80 + n % 64],
          by simp only [h1, h2, h3, if_true, if_false], by omega⟩
      · exact ⟨0xF0 + n / 262144, [0x80 + n / 4096 % 64, 0x80 + n / 64 % 64, 0x80 + n % 64],
          by simp only [h1, h2, h3, if_false], by omega⟩

/-- No string has the single byte `0xFF` as its UTF-8 encoding. -/
theorem utf8Encode_ne_ff (s : String) : utf8Encode s ≠ [255] := by
  unfold utf8Encode
  cases s.data with
  | nil => simp [utf8EncodeChars]
  | cons c cs =>
    obtain ⟨b, bs, hb, hle⟩ := utf8EncodeChar_head c
    simp only [utf8EncodeChars, hb, List.cons_append]
    intro h
    have : b = 255 := by injection h
    omega

/-! ## Codec B: lemmas -/

theorem encryptGCM_eq (N : NodeCrypto ε γ δ) (k p nonce : Bytes) :
    encryptGCM N k p nonce
      = (aes256gcmEncrypt N k nonce p).map fun r => nonce ++ r.1 ++ r.2 := by
  unfold encryptGCM aes256gcmEncrypt
  cases N.createCipheriv "aes-256-gcm" k nonce with
  | error e => rfl
  | ok c0 =>
    simp only [bind, Except.bind]
    cases N.cipherUpdate c0 p with
    | error e => rfl
    | ok r1 =>
      simp only
      cases N.cipherFinal r1.1 with
      | error e => rfl
      | ok r2 =>
        simp only
        cases N.getAuthTag r2.1 with
        | error e => rfl
        | ok t => rfl

theorem decryptGCM_eq (N : NodeCrypto ε γ δ) (k blob : Bytes) :
    decryptGCM N k blob
      = (aes256gcmDecrypt N k (gcmSlices blob).1 (gcmSlices blob).2.1 (gcmSlices blob).2.2).map
          fun r => decoderWrite r.1 ++ bufferToString r.2 := by
  unfold decryptGCM aes256gcmDecrypt
  simp only
  cases N.createDecipheriv "aes-256-gcm" k (gcmSlices blob).1 with
  | error e => rfl
  | ok d0 =>
    simp only [bind, Except.bind]
    cases N.setAuthTag d0 (gcmSlices blob).2.2 with
    | error e => rfl
    | ok d1 =>
      simp only
      cases N.decipherUpdate d1 (gcmSlices blob).2.1 with
      | error e => rfl
      | ok r1 =>
        simp only
        cases N.decipherFinal r1.1 with
        | error e => rfl
        | ok r2 => rfl

/-! ## Codec B: claims -/

/-- C1 (counterexample). Under a cipher that inverts itself on the one-byte
plaintext `0xFF`, `decryptGCM` after `encryptGCM` returns the text U+FFFD, whose
bytes are `EF BF BD`; no text at all has the bytes `FF`. -/
theorem codecB_round_trip_not_bytes :
    aes256gcmEncrypt toyGcm zeroKey sampleNonce [255] = .ok ([77], ffTag) ∧
    aes256gcmDecrypt toyGcm zeroKey sampleNonce [77] ffTag = .ok ([255], []) ∧
    encryptGCM toyGcm zeroKey [255] sampleNonce = .ok (sampleNonce ++ [77] ++ ffTag) ∧
    decryptGCM toyGcm zeroKey (sampleNonce ++ [77] ++ ffTag) = .ok (String.mk [REPLACEMENT]) ∧
    utf8Encode (String.mk [REPLACEMENT]) = [239, 191, 189] ∧
    ∀ s : String, utf8Encode s ≠ [255] :=
  ⟨rfl, rfl, rfl, rfl, rfl, utf8Encode_ne_ff⟩

/-- C1 (amended). For every key, every 12-byte nonce and every plaintext that
is the UTF-8 encoding of a text `s`: when AES-256-GCM encrypts the plaintext to
a ciphertext and a 16-byte tag, and decrypts these back to the plaintext,
`encryptGCM` returns an envelope on which `decryptGCM` returns exactly `s`. -/
theorem codecB_round_trip (N : NodeCrypto ε γ δ) (k nonce ciphertext tag : Bytes) (s : String)
    (hn : nonce.length = NONCE_LENGTH) (ht : tag.length = TAG_LENGTH)
    (henc : aes256gcmEncrypt N k nonce (utf8Encode s) = .ok (ciphertext, tag))
    (hdec : aes256gcmDecrypt N k nonce ciphertext tag = .ok (utf8Encode s, [])) :
    ∃ env, encryptGCM N k (utf8Encode s) nonce = .ok env ∧ decryptGCM N k env = .ok s := by
  refine ⟨nonce ++ ciphertext ++ tag, ?_, ?_⟩
  · rw [encryptGCM_eq, henc]; rfl
  · rw [decryptGCM_eq, gcmSlices_framed nonce ciphertext tag hn ht]
    simp only [hdec, Except.map, decoderWrite_utf8Encode, bufferToString_nil]
    simp

/-- C1 (witness). The scenario of the specification: the key of 32 zero bytes and
the plaintext "hello". -/
theorem codecB_round_trip_hello :
    zeroKey.length = 32 ∧ sampleNonce.length = NONCE_LENGTH ∧ helloTag.length = TAG_LENGTH ∧
    aes256gcmEncrypt toyGcm zeroKey sampleNonce (utf8Encode "hello")
      = .ok ([182, 179, 186, 186, 189], helloTag) ∧
    aes256gcmDecrypt toyGcm zeroKey sampleNonce [182, 179, 186, 186, 189] helloTag
      = .ok (utf8Encode "hello", []) ∧
    ∃ env, encryptGCM toyGcm zeroKey (utf8Encode "hello") sampleNonce = .ok env ∧
      decryptGCM toyGcm zeroKey env = .ok "hello" :=
  ⟨rfl, rfl, rfl, rfl, rfl,
    codecB_round_trip toyGcm zeroKey sampleNonce [182, 179, 186, 186, 189] helloTag "hello"
      rfl rfl rfl rfl⟩

/-- C2. For every key, plaintext and 12-byte nonce: when AES-256-GCM returns a
ciphertext of the plaintext's length and a 16-byte tag, `encryptGCM` returns an
envelope of exactly `12 + len(p) + 16` bytes, hence of at least 28 bytes. -/
theorem codecB_length (N : NodeCrypto ε γ δ) (k p nonce ciphertext tag : Bytes)
    (hn : nonce.length = NONCE_LENGTH)
    (henc : aes256gcmEncrypt N k nonce p = .ok (ciphertext, tag))
    (hc : ciphertext.length = p.length) (ht : tag.length = TAG_LENGTH) :
    ∃ env, encryptGCM N k p nonce = .ok env ∧ env.length = 12 + p.length + 16 ∧
      28 ≤ env.length := by
  refine ⟨nonce ++ ciphertext ++ tag, ?_, ?_, ?_⟩
  · rw [encryptGCM_eq, henc]; rfl
  · simp only [List.length_append, hn, hc, ht, NONCE_LENGTH, TAG_LENGTH]
  · simp only [List.length_append, hn, hc, ht, NONCE_LENGTH, TAG_LENGTH]; omega

/-- C2 (witness). The scenario of the specification: "hello" gives 33 bytes. -/
theorem codecB_length_hello :
    sampleNonce.length = NONCE_LENGTH ∧
    (utf8Encode "hello").length = 5 ∧
    ∃ env, encryptGCM toyGcm zeroKey (utf8Encode "hello") sampleNonce = .ok env ∧
      env.length = 12 + (utf8Encode "hello").length + 16 ∧ 28 ≤ env.length :=
  ⟨rfl, rfl,
    codecB_length toyGcm zeroKey (utf8Encode "hello") sampleNonce [182, 179, 186, 186, 189]
      helloTag rfl rfl rfl rfl⟩

/-- C3. Framing of codec B. `encryptGCM` returns `nonce ++ ciphertext ++ tag`,
whose last 16 bytes are the tag. On a blob of at least 28 bytes `decryptGCM`
takes the first 12 bytes as nonce, the last 16 as tag and the `len - 28` bytes
between them as ciphertext, hands exactly these to AES-256-GCM, and the three
pieces concatenate back to the blob. On an envelope framed by `encryptGCM` the
pieces are the nonce, the ciphertext and the tag that were framed. -/
theorem codecB_framing (N : NodeCrypto ε γ δ) (k p nonce ciphertext tag blob : Bytes)
    (hn : nonce.length = NONCE_LENGTH) (ht : tag.length = TAG_LENGTH)
    (henc : aes256gcmEncrypt N k nonce p = .ok (ciphertext, tag))
    (hblob : 28 ≤ blob.length) :
    encryptGCM N k p nonce = .ok (nonce ++ ciphertext ++ tag) ∧
    (nonce ++ ciphertext ++ tag).drop ((nonce ++ ciphertext ++ tag).length - 16) = tag ∧
    gcmSlices blob
      = (blob.take 12, (blob.drop 12).take (blob.length - 28), blob.drop (blob.length - 16)) ∧
    (blob.take 12).length = 12 ∧
    ((blob.drop 12).take (blob.length - 28)).length = blob.length - 28 ∧
    (blob.drop (blob.length - 16)).length = 16 ∧
    blob.take 12 ++ (blob.drop 12).take (blob.length - 28) ++ blob.drop (blob.length - 16)
      = blob ∧
    decryptGCM N k blob
      = (aes256gcmDecrypt N k (blob.take 12) ((blob.drop 12).take (blob.length - 28))
          (blob.drop (blob.length - 16))).map
          (fun r => decoderWrite r.1 ++ bufferToString r.2) ∧
    gcmSlices (nonce ++ ciphertext ++ tag) = (nonce, ciphertext, tag) := by
  have hs := gcmSlices_of_le blob hblob
  have hframed := gcmSlices_framed nonce ciphertext tag hn ht
  refine ⟨?_, ?_, hs, ?_, ?_, ?_, ?_, ?_, hframed⟩
  · rw [encryptGCM_eq, henc]; rfl
  · have : (nonce ++ ciphertext ++ tag).length - 16 = (nonce ++ ciphertext).length := by
      simp only [List.length_append, ht, TAG_LENGTH]; omega
    rw [this, List.drop_left]
  · rw [List.length_take]; omega
  · rw [List.length_take, List.length_drop]; omega
  · rw [List.length_drop]; omega
  · have e : blob.drop (blob.length - 16) = (blob.drop 12).drop (blob.length - 28) := by
      rw [List.drop_drop]; congr 1; omega
    rw [e, List.append_assoc, List.take_append_drop, List.take_append_drop]
  · rw [decryptGCM_eq, hs]

/-- C3 (witness). The envelope of "hello" under the stand-in cipher. -/
theorem codecB_framing_hello :
    sampleNonce.length = NONCE_LENGTH ∧ helloTag.length = TAG_LENGTH ∧
    28 ≤ (List.range 30).length ∧
    gcmSlices (List.range 30)
      = ([0, 1, 2, 3, 4, 5, 6, 7, 8, 9, 10, 11], [12, 13],
         [14, 15, 16, 17, 18, 19, 20, 21, 22, 23, 24, 25, 26, 27, 28, 29]) ∧
    gcmSlices (sampleNonce ++ [182, 179, 186, 186, 189] ++ helloTag)
      = (sampleNonce, [182, 179, 186, 186, 189], helloTag) :=
  ⟨rfl, rfl, by decide, rfl,
    (codecB_framing toyGcm zeroKey (utf8Encode "hello") sampleNonce [182, 179, 186, 186, 189]
      helloTag (List.range 30) rfl rfl rfl (by decide)).2.2.2.2.2.2.2.2⟩

/-- C4 (counterexample). Two blobs shorter than 28 bytes. On the first, of 16
bytes, `decryptGCM` takes the first 12 bytes as nonce and all 16 as tag, the
cipher accepts them, and a text is returned. On the second, of 20 zero bytes,
the failure is the cipher's tag check. -/
theorem decryptGCM_short_blob_reaches_cipher :
    shortBlob.length < 28 ∧
    gcmSlices shortBlob = (shortBlob.take 12, [], shortBlob) ∧
    decryptGCM toyGcm zeroKey shortBlob = .ok "" ∧
    (List.replicate 20 0).length < 28 ∧
    decryptGCM toyGcm zeroKey (List.replicate 20 0) = .error .unableToAuthenticate :=
  ⟨by decide, rfl, rfl, by decide, rfl⟩

/-- C4 (amended). On a blob shorter than 28 bytes `decryptGCM` makes no check of
its own: it hands AES-256-GCM the slices that `slice` gives (nonce: the first
12 bytes or the whole blob; from 16 bytes on, an empty ciphertext and the last
16 bytes as tag; below 16 bytes the end index `len - 16` is negative and counts
from the end), and its outcome is the cipher's: the cipher's error when a call
throws, the decoded text otherwise. -/
theorem decryptGCM_undersized (N : NodeCrypto ε γ δ) (k blob : Bytes)
    (h : blob.length < 28) :
    (gcmSlices blob).1 = blob.take 12 ∧
    (16 ≤ blob.length →
      (gcmSlices blob).2.1 = [] ∧ (gcmSlices blob).2.2 = blob.drop (blob.length - 16)) ∧
    (blob.length < 16 →
      (gcmSlices blob).2.1 = (blob.take (2 * blob.length - 16)).drop 12 ∧
      (gcmSlices blob).2.2 = blob.drop (2 * blob.length - 16)) ∧
    (∀ e, aes256gcmDecrypt N k (gcmSlices blob).1 (gcmSlices blob).2.1 (gcmSlices blob).2.2
        = .error e → decryptGCM N k blob = .error e) ∧
    (∀ updated final,
      aes256gcmDecrypt N k (gcmSlices blob).1 (gcmSlices blob).2.1 (gcmSlices blob).2.2
        = .ok (updated, final) →
      decryptGCM N k blob = .ok (decoderWrite updated ++ bufferToString final)) := by
  refine ⟨?_, ?_, ?_, ?_, ?_⟩
  · rw [gcmSlices_general]
  · intro h16
    rw [gcmSlices_of_lt blob h16 h]
    exact ⟨rfl, rfl⟩
  · intro h16
    rw [gcmSlices_of_lt_16 blob h16]
    exact ⟨rfl, rfl⟩
  · intro e he
    rw [decryptGCM_eq, he]; rfl
  · intro u f hu
    rw [decryptGCM_eq, hu]; rfl

/-- C4 (witness). A blob of 15 bytes: two bytes of ciphertext and one of tag. -/
theorem decryptGCM_undersized_15 :
    (List.range 15).length < 28 ∧
    gcmSlices (List.range 15) = ([0, 1, 2, 3, 4, 5, 6, 7, 8, 9, 10, 11], [12, 13], [14]) ∧
    decryptGCM toyGcm zeroKey (List.range 15) = .error .invalidTagLength :=
  ⟨by decide, rfl,
    (decryptGCM_undersized toyGcm zeroKey (List.range 15) (by decide)).2.2.2.1
      .invalidTagLength rfl⟩

/-! ## Codec A: lemmas -/

/-- The two `set` calls on the fresh array never leave its range, and fill it
with the iv followed by the ciphertext. -/
theorem typedArraySet_frame (iv ciphertext : Bytes) :
    typedArraySet (newUint8Array (iv.length + ciphertext.length)) iv 0
        = some (iv ++ newUint8Array ciphertext.length) ∧
    typedArraySet (iv ++ newUint8Array ciphertext.length) ciphertext iv.length
        = some (iv ++ ciphertext) := by
  constructor
  · unfold typedArraySet newUint8Array
    rw [if_pos (by simp)]
    simp only [List.take_zero, List.nil_append, Nat.zero_add, List.drop_replicate,
      Nat.add_sub_cancel_left]
  · unfold typedArraySet newUint8Array
    rw [if_pos (by simp)]
    rw [List.take_left, List.drop_of_length_le (by simp), List.append_nil]

theorem DHEncrypt_eq (R : SignalRandom ε) (S : SignalCrypto ε) (k p : Bytes) :
    DHEncrypt R S k p
      = (liftLibrary (R.getRandomBytes IV_LENGTH)).bind fun iv =>
          (liftLibrary (S.encrypt k p iv)).map fun c => iv ++ c := by
  unfold DHEncrypt
  cases R.getRandomBytes IV_LENGTH with
  | error e => rfl
  | ok iv =>
    simp only [liftLibrary, bind, Except.bind]
    cases S.encrypt k p iv with
    | error e => rfl
    | ok c =>
      simp only [(typedArraySet_frame iv c).1, (typedArraySet_frame iv c).2, liftRange,
        Except.map]
      rfl

theorem DHEncrypt64_eq (S : SignalCrypto ε) (B : ByteBufferLib ε) (k p iv : Bytes) :
    DHEncrypt64 S B k p iv
      = (liftLibrary (S.encrypt k p iv)).map fun c => B.toBase64 (iv ++ c) := by
  unfold DHEncrypt64
  cases S.encrypt k p iv with
  | error e => rfl
  | ok c =>
    simp only [liftLibrary, bind, Except.bind, (typedArraySet_frame iv c).1,
      (typedArraySet_frame iv c).2, liftRange, Except.map]
    rfl

theorem slice_iv (iv ciphertext : Bytes) (hiv : iv.length = IV_LENGTH) :
    slice (iv ++ ciphertext) 0 IV_LENGTH = iv := by
  rw [slice_zero_natCast, ← hiv, List.take_left]

theorem sliceFrom_iv (iv ciphertext : Bytes) (hiv : iv.length = IV_LENGTH) :
    sliceFrom (iv ++ ciphertext) IV_LENGTH = ciphertext := by
  rw [sliceFrom_natCast, ← hiv, List.drop_left]

theorem DHDecrypt_framed (S : SignalCrypto ε) (k iv ciphertext : Bytes)
    (hiv : iv.length = IV_LENGTH) :
    DHDecrypt S k (iv ++ ciphertext) = S.decrypt k ciphertext iv := by
  unfold DHDecrypt
  simp only [slice_iv iv ciphertext hiv, sliceFrom_iv iv ciphertext hiv]

theorem DHDecrypt64_eq (S : SignalCrypto ε) (B : ByteBufferLib ε) (k : Bytes) (t : String) :
    DHDecrypt64 S B k t = (B.fromBase64 t).bind (DHDecrypt S k) := by
  unfold DHDecrypt64 DHDecrypt
  rfl

/-! ## Codec A and its text form: claims -/

/-- C5 (the code at the failing input). On Node the draw of the iv throws: for
every library, key and plaintext `DHEncrypt` fails at
`libsignal.crypto.getRandomBytes` and returns no envelope, so `DHDecrypt` has
nothing to invert. With a random source that has the function, the same call
returns `iv ++ c`, and `DHDecrypt` returns the plaintext from it. -/
theorem DHEncrypt_throws_at_draw :
    (∀ (S : SignalCrypto ToyError) (k p : Bytes),
      DHEncrypt nodeSignalRandom S k p = .error (.library .notAFunction)) ∧
    DHEncrypt nodeSignalRandom toySignal zeroKey (utf8Encode "hello")
      = .error (.library .notAFunction) ∧
    DHEncrypt countingSignalRandom toySignal zeroKey (utf8Encode "hello")
      = .ok (sampleIv ++ helloCiphertextA) ∧
    DHDecrypt toySignal zeroKey (sampleIv ++ helloCiphertextA) = .ok (utf8Encode "hello") :=
  ⟨fun S k p => by rw [DHEncrypt_eq]; rfl, rfl, rfl, rfl⟩

/-- C6 (the code at the failing input). On Node `DHEncrypt` on the key of 32
zero bytes and "hello" throws at the draw of the iv: its result is no
`iv ++ c`, of no length, although the library encrypts "hello" under the iv
that `DHEncrypt64` would draw. -/
theorem DHEncrypt_no_envelope_on_node :
    toySignal.encrypt zeroKey (utf8Encode "hello") sampleIv = .ok helloCiphertextA ∧
    DHEncrypt nodeSignalRandom toySignal zeroKey (utf8Encode "hello")
      = .error (.library .notAFunction) ∧
    ∀ iv c : Bytes,
      DHEncrypt nodeSignalRandom toySignal zeroKey (utf8Encode "hello") ≠ .ok (iv ++ c) :=
  have e : DHEncrypt nodeSignalRandom toySignal zeroKey (utf8Encode "hello")
      = .error (.library .notAFunction) := rfl
  ⟨rfl, e, fun iv c h => by rw [e] at h; cases h⟩

/-- C7 (counterexample). On the 3-byte envelope `[1, 2, 3]`, `DHDecrypt` calls
the library with the iv `[1, 2, 3]` and an empty ciphertext: a library that
reports its arguments reports these, and the error of the stand-in library is
its own complaint about the iv. -/
theorem DHDecrypt_short_envelope_reaches_library :
    ([1, 2, 3] : Bytes).length < 16 ∧
    DHDecrypt probeSignal zeroKey [1, 2, 3] = .error (zeroKey, [], [1, 2, 3]) ∧
    DHDecrypt toySignal zeroKey [1, 2, 3] = .error .invalidIV :=
  ⟨by decide, rfl, rfl⟩

/-- C7 (amended). On an envelope shorter than 16 bytes `DHDecrypt` makes no
check of its own: it calls the library with the whole envelope as iv and an
empty ciphertext, and returns or throws what that call returns or throws. -/
theorem DHDecrypt_undersized (S : SignalCrypto ε) (k env : Bytes)
    (h : env.length < IV_LENGTH) :
    slice env 0 IV_LENGTH = env ∧ sliceFrom env IV_LENGTH = [] ∧
    DHDecrypt S k env = S.decrypt k [] env := by
  have h16 : env.length < 16 := h
  have e1 : slice env 0 IV_LENGTH = env := by
    rw [slice_zero_natCast, List.take_of_length_le (by simp only [IV_LENGTH]; omega)]
  have e2 : sliceFrom env IV_LENGTH = [] := by
    rw [sliceFrom_natCast, List.drop_of_length_le (by simp only [IV_LENGTH]; omega)]
  refine ⟨e1, e2, ?_⟩
  unfold DHDecrypt
  simp only [e1, e2]

/-- C7 (witness). The 3-byte envelope under the stand-in library. -/
theorem DHDecrypt_undersized_three :
    ([1, 2, 3] : Bytes).length < IV_LENGTH ∧
    DHDecrypt toySignal zeroKey [1, 2, 3] = toySignal.decrypt zeroKey [] [1, 2, 3] :=
  ⟨by decide, (DHDecrypt_undersized toySignal zeroKey [1, 2, 3] (by decide)).2.2⟩

/-- C8. Round trip of the text wrapper. For every key, plaintext and 16-byte
iv: when the library encrypts the plaintext to `c` and decrypts `c` back, and
base64 decoding returns `iv ++ c` from its encoding, `DHEncrypt64` returns a
text on which `DHDecrypt64` returns the plaintext. -/
theorem text_round_trip (S : SignalCrypto ε) (B : ByteBufferLib ε) (k p iv c : Bytes)
    (hiv : iv.length = IV_LENGTH)
    (henc : S.encrypt k p iv = .ok c) (hdec : S.decrypt k c iv = .ok p)
    (h64 : B.fromBase64 (B.toBase64 (iv ++ c)) = .ok (iv ++ c)) :
    ∃ t, DHEncrypt64 S B k p iv = .ok t ∧ DHDecrypt64 S B k t = .ok p := by
  refine ⟨B.toBase64 (iv ++ c), ?_, ?_⟩
  · rw [DHEncrypt64_eq, henc]; rfl
  · rw [DHDecrypt64_eq, h64]
    show DHDecrypt S k (iv ++ c) = .ok p
    rw [DHDecrypt_framed S k iv c hiv, hdec]

/-- C8 (witness). The plaintext "hello" under the stand-in libraries. -/
theorem text_round_trip_hello :
    sampleIv.length = IV_LENGTH ∧
    toyByteBuffer.fromBase64 (toyByteBuffer.toBase64 (sampleIv ++ helloCiphertextA))
      = .ok (sampleIv ++ helloCiphertextA) ∧
    DHEncrypt64 toySignal toyByteBuffer zeroKey (utf8Encode "hello") sampleIv
      = .ok "AAECAwQFBgcICQoLDA0OD29rdXZyFRQTCgkIBw4NDAs=" ∧
    ∃ t, DHEncrypt64 toySignal toyByteBuffer zeroKey (utf8Encode "hello") sampleIv = .ok t ∧
      DHDecrypt64 toySignal toyByteBuffer zeroKey t = .ok (utf8Encode "hello") :=
  ⟨rfl, rfl, rfl,
    text_round_trip toySignal toyByteBuffer zeroKey (utf8Encode "hello") sampleIv
      helloCiphertextA rfl rfl rfl rfl⟩

/-- C9 (the code at the failing input). For the key of 32 zero bytes and
"hello", `DHEncrypt64` returns the base64 text of `iv ++ c`, while on Node
`DHEncrypt` throws at the draw of the iv: the text is the base64 form of no
result of `DHEncrypt`. On the decrypt side `DHDecrypt64` on that text is
`DHDecrypt` on the decoded envelope, and both return "hello". -/
theorem DHEncrypt64_without_DHEncrypt_on_node :
    DHEncrypt64 toySignal toyByteBuffer zeroKey (utf8Encode "hello") sampleIv
      = .ok (toyByteBuffer.toBase64 (sampleIv ++ helloCiphertextA)) ∧
    (DHEncrypt nodeSignalRandom toySignal zeroKey (utf8Encode "hello")).map
        toyByteBuffer.toBase64
      = .error (.library .notAFunction) ∧
    (∀ text : String,
      (DHEncrypt nodeSignalRandom toySignal zeroKey (utf8Encode "hello")).map
        toyByteBuffer.toBase64 ≠ .ok text) ∧
    DHDecrypt64 toySignal toyByteBuffer zeroKey
        (toyByteBuffer.toBase64 (sampleIv ++ helloCiphertextA))
      = DHDecrypt toySignal zeroKey (sampleIv ++ helloCiphertextA) ∧
    DHDecrypt toySignal zeroKey (sampleIv ++ helloCiphertextA) = .ok (utf8Encode "hello") :=
  have e : (DHEncrypt nodeSignalRandom toySignal zeroKey (utf8Encode "hello")).map
      toyByteBuffer.toBase64 = .error (.library .notAFunction) := rfl
  ⟨rfl, e, fun text h => (by rw [e] at h; cases h), rfl, rfl⟩

/-! ## Key derivation: claims -/

/-- C10. Key derivation. `makeSymmetricKey(priv, pub)` throws what
`calculateAgreement(pub, priv)` throws and otherwise returns the HMAC, under
`sha256` and the key bytes of "LOKI", of the agreement. So when the agreement is
`raw` the key is that HMAC of `raw`, the same for every other pair of keys with
the agreement `raw`, and, the HMAC having 32 bytes, it has 32 bytes. -/
theorem makeSymmetricKey_is_hmac (C : SignalCurve ε) (H : NodeHmac)
    (priv pub raw : Bytes)
    (hraw : C.calculateAgreement pub priv = .ok raw)
    (hH : ∀ key data, (H.hmacDigest "sha256" key data).length = 32) :
    makeSymmetricKey C H priv pub
      = (C.calculateAgreement pub priv).map (H.hmacDigest "sha256" [76, 79, 75, 73]) ∧
    makeSymmetricKey C H priv pub = .ok (H.hmacDigest "sha256" (utf8Encode "LOKI") raw) ∧
    (∀ priv2 pub2, C.calculateAgreement pub2 priv2 = .ok raw →
      makeSymmetricKey C H priv2 pub2 = makeSymmetricKey C H priv pub) ∧
    ∃ key, makeSymmetricKey C H priv pub = .ok key ∧ key.length = 32 := by
  have hgen : ∀ priv2 pub2, makeSymmetricKey C H priv2 pub2
      = (C.calculateAgreement pub2 priv2).map (H.hmacDigest "sha256" [76, 79, 75, 73]) := by
    intro priv2 pub2
    unfold makeSymmetricKey
    cases C.calculateAgreement pub2 priv2 <;> rfl
  have hkey : makeSymmetricKey C H priv pub
      = .ok (H.hmacDigest "sha256" (utf8Encode "LOKI") raw) := by
    rw [hgen, hraw]; rfl
  refine ⟨hgen priv pub, hkey, ?_, _, hkey, hH _ _⟩
  intro priv2 pub2 h2
  rw [hgen priv2 pub2, h2, hgen priv pub, hraw]

/-- C10 (witness). The sample key pair on the stand-in curve. -/
theorem makeSymmetricKey_is_hmac_sample :
    toyCurve.calculateAgreement samplePub samplePriv = .ok sampleAgreement ∧
    (∀ key data, (toyHmac.hmacDigest "sha256" key data).length = 32) ∧
    ∃ key, makeSymmetricKey toyCurve toyHmac samplePriv samplePub = .ok key ∧
      key.length = 32 :=
  ⟨rfl, fun key data => by simp [toyHmac],
    (makeSymmetricKey_is_hmac toyCurve toyHmac samplePriv samplePub sampleAgreement rfl
      (fun key data => by simp [toyHmac])).2.2.2⟩

/-! ## Message signature: lemmas -/

/-- The statements that build `sigString`, as one concatenation. -/
theorem sigString_eq (v : JsValue) (n : NoteValue) (m : AdnMessage) :
    sigString v n m
      = jsTrim m.text ++ n.timestamp.toJsString
          ++ (match n.quote with
              | none => ""
              | some q =>
                q.id.toJsString ++ q.author.toJsString ++ jsTrim q.text
                  ++ (if m.reply_to.truthy then m.reply_to.toJsString else ""))
          ++ v.toJsString := by
  unfold sigString
  cases hq : n.quote with
  | none => simp [Id.run]
  | some q =>
    cases hr : m.reply_to.truthy <;> simp [Id.run, String.append_assoc]

/-- The function `getSigData` signs the UTF-8 bytes of `sigString` and prints
the signature in hexadecimal. -/
theorem getSigData_eq (S : SignalSignature ε) (v : JsValue) (priv : Bytes)
    (n : NoteValue) (m : AdnMessage) :
    getSigData S v priv n m
      = (S.calculateSignature priv (utf8Encode (sigString v n m))).map bufferToHex := by
  unfold getSigData sigString
  cases hq : n.quote with
  | none =>
    simp only [Id.run, bind, pure]
    cases S.calculateSignature priv _ <;> rfl
  | some q =>
    cases hr : m.reply_to.truthy
    · simp only [Id.run, bind, pure, Bool.false_eq_true, if_false]
      cases S.calculateSignature priv _ <;> rfl
    · simp only [Id.run, bind, pure, if_true]
      cases S.calculateSignature priv _ <;> rfl

/-- Two strings with the same UTF-8 bytes are the same string. -/
theorem utf8Encode_injective {s t : String} (h : utf8Encode s = utf8Encode t) : s = t := by
  rw [← decoderWrite_utf8Encode s, ← decoderWrite_utf8Encode t, h]

theorem digitChar_value : ∀ k, k < 10 → (Nat.digitChar k).toNat - 48 = k := by decide

theorem digitChar_ne_minus : ∀ k, k < 10 → Nat.digitChar k ≠ '-' := by decide

/-- Reading the digits put out by `Nat.toDigitsCore` back gives the number. -/
theorem foldl_toDigitsCore (fuel : Nat) : ∀ (n : Nat) (ds : List Char), n < fuel →
    List.foldl (fun acc c => acc * 10 + (c.toNat - 48)) 0 (Nat.toDigitsCore 10 fuel n ds)
      = List.foldl (fun acc c => acc * 10 + (c.toNat - 48)) n ds := by
  induction fuel with
  | zero => intro n ds h; omega
  | succ fuel ih =>
    intro n ds h
    rw [Nat.toDigitsCore]
    have hd := digitChar_value (n % 10) (Nat.mod_lt n (by decide))
    by_cases h0 : n / 10 = 0
    · rw [if_pos h0, List.foldl_cons, hd]
      congr 1
      omega
    · rw [if_neg h0, ih (n / 10) _ (by omega), List.foldl_cons, hd]
      congr 1
      omega

theorem toDigits_injective {a b : Nat} (h : Nat.toDigits 10 a = Nat.toDigits 10 b) : a = b := by
  have ha := foldl_toDigitsCore (a + 1) a [] (by omega)
  have hb := foldl_toDigitsCore (b + 1) b [] (by omega)
  unfold Nat.toDigits at h
  rw [h, hb] at ha
  simpa using ha.symm

/-- The digits put out by `Nat.toDigitsCore` contain no minus sign. -/
theorem minus_not_mem_toDigitsCore (fuel : Nat) : ∀ (n : Nat) (ds : List Char),
    '-' ∉ ds → '-' ∉ Nat.toDigitsCore 10 fuel n ds := by
  induction fuel with
  | zero => intro n ds h; rw [Nat.toDigitsCore]; exact h
  | succ fuel ih =>
    intro n ds h
    rw [Nat.toDigitsCore]
    have hd := digitChar_ne_minus (n % 10) (Nat.mod_lt n (by decide))
    have hcons : '-' ∉ Nat.digitChar (n % 10) :: ds := by
      intro hm
      rcases List.mem_cons.mp hm with h1 | h1
      · exact hd h1.symm
      · exact h h1
    by_cases h0 : n / 10 = 0
    · rw [if_pos h0]; exact hcons
    · rw [if_neg h0]; exact ih _ _ hcons

/-- Two integers with the same string form are the same integer. -/
theorem numberToString_injective {a b : Int} (h : numberToString a = numberToString b) :
    a = b := by
  unfold numberToString at h
  have hminus : ∀ n : Nat, '-' ∉ Nat.toDigits 10 n := fun n =>
    minus_not_mem_toDigitsCore (n + 1) n [] (by simp)
  by_cases ha : a < 0 <;> by_cases hb : b < 0
  · rw [if_pos ha, if_pos hb] at h
    have h2 : Nat.toDigits 10 a.natAbs = Nat.toDigits 10 b.natAbs := by
      injection h with h1
      injection h1
    have := toDigits_injective h2
    omega
  · rw [if_pos ha, if_neg hb] at h
    injection h with h1
    exact absurd (h1 ▸ List.mem_cons_self '-' _) (hminus b.natAbs)
  · rw [if_neg ha, if_pos hb] at h
    injection h with h1
    exact absurd (h1 ▸ List.mem_cons_self '-' _) (hminus a.natAbs)
  · rw [if_neg ha, if_neg hb] at h
    have h2 : Nat.toDigits 10 a.natAbs = Nat.toDigits 10 b.natAbs := by
      injection h
    have := toDigits_injective h2
    omega

theorem hexDigit_injective : ∀ x, x < 16 → ∀ y, y < 16 → hexDigit x = hexDigit y → x = y := by
  decide

/-- Two byte buffers with the same hexadecimal form are the same buffer. -/
theorem hexChars_injective : ∀ (a b : Bytes), (∀ x ∈ a, x < 256) → (∀ x ∈ b, x < 256) →
    hexChars a = hexChars b → a = b := by
  intro a
  induction a with
  | nil =>
    intro b _ _ h
    cases b with
    | nil => rfl
    | cons y ys => simp [hexChars] at h
  | cons x xs ih =>
    intro b ha hb h
    cases b with
    | nil => simp [hexChars] at h
    | cons y ys =>
      simp only [hexChars, List.cons.injEq] at h
      have hx := ha x (List.mem_cons_self _ _)
      have hy := hb y (List.mem_cons_self _ _)
      have h1 := hexDigit_injective _ (Nat.mod_lt _ (by decide)) _ (Nat.mod_lt _ (by decide)) h.1
      have h2 := hexDigit_injective _ (Nat.mod_lt _ (by decide)) _ (Nat.mod_lt _ (by decide)) h.2.1
      have hxy : x = y := by omega
      have htl := ih ys (fun z hz => ha z (List.mem_cons_of_mem _ hz))
        (fun z hz => hb z (List.mem_cons_of_mem _ hz)) h.2.2
      rw [hxy, htl]

theorem bufferToHex_injective (a b : Bytes) (ha : ∀ x ∈ a, x < 256) (hb : ∀ x ∈ b, x < 256)
    (h : bufferToHex a = bufferToHex b) : a = b := by
  unfold bufferToHex at h
  exact hexChars_injective a b ha hb (by injection h)

/-- Every character of the hexadecimal form is a digit or a lower-case letter from `a` to `f`. -/
theorem hexChars_lowercase (buf : Bytes) :
    ∀ c ∈ hexChars buf, c ∈ "0123456789abcdef".data := by
  have hd : ∀ n, n < 16 → hexDigit n ∈ "0123456789abcdef".data := by decide
  induction buf with
  | nil => intro c h; simp [hexChars] at h
  | cons b bs ih =>
    intro c h
    simp only [hexChars, List.mem_cons] at h
    rcases h with h | h | h
    · rw [h]; exact hd _ (Nat.mod_lt _ (by decide))
    · rw [h]; exact hd _ (Nat.mod_lt _ (by decide))
    · exact ih c h

theorem string_append_right_cancel {a b c : String} (h : a ++ c = b ++ c) : a = b := by
  have h2 := congrArg String.data h
  simp only [String.data_append] at h2
  exact String.ext (List.append_cancel_right h2)

theorem string_append_left_cancel {a b c : String} (h : c ++ a = c ++ b) : a = b := by
  have h2 := congrArg String.data h
  simp only [String.data_append] at h2
  exact String.ext (List.append_cancel_left h2)

/-! ## Bit flips: lemmas -/

theorem flipBit_length : ∀ (buf : Bytes) (i j : Nat), (flipBit buf i j).length = buf.length
  | [], _, _ => rfl
  | _ :: _, 0, _ => rfl
  | _ :: bs, i + 1, j => by
    simp only [flipBit, List.length_cons, flipBit_length bs i j]

theorem flipBit_append_left : ∀ (a b : Bytes) (i j : Nat), i < a.length →
    flipBit (a ++ b) i j = flipBit a i j ++ b
  | [], _, _, _, h => by simp at h
  | _ :: _, _, 0, _, _ => rfl
  | x :: xs, b, i + 1, j, h => by
    have h2 : i < xs.length := by simpa using h
    have ih := flipBit_append_left xs b i j h2
    show x :: flipBit (xs ++ b) i j = x :: (flipBit xs i j ++ b)
    rw [ih]

theorem flipBit_append_right : ∀ (a b : Bytes) (i j : Nat), a.length ≤ i →
    flipBit (a ++ b) i j = a ++ flipBit b (i - a.length) j
  | [], _, _, _, _ => rfl
  | _ :: _, _, 0, _, h => by simp at h
  | x :: xs, b, i + 1, j, h => by
    have h2 : xs.length ≤ i := by simpa using h
    have ih := flipBit_append_right xs b i j h2
    show x :: flipBit (xs ++ b) i j = x :: (xs ++ flipBit b (i + 1 - (xs.length + 1)) j)
    rw [ih, Nat.add_sub_add_right]

/-- Flipping a bit inside a buffer changes the buffer. -/
theorem flipBit_ne : ∀ (a : Bytes) (i j : Nat), i < a.length → flipBit a i j ≠ a
  | [], _, _, h => by simp at h
  | x :: xs, 0, j, _ => by
    intro h
    simp only [flipBit, List.cons.injEq, and_true] at h
    have h2 : x ^^^ 2 ^ j = x ^^^ 0 := by rw [h, Nat.xor_zero]
    have h3 := Nat.xor_right_inj.mp h2
    exact absurd h3 (by positivity)
  | x :: xs, i + 1, j, h => by
    intro h1
    simp only [flipBit, List.cons.injEq, true_and] at h1
    exact flipBit_ne xs i j (by simpa using h) h1

/-! ## Key derivation, tampering and decoded text: claims -/

/-- C11. Commutativity of the derived key. For two key pairs whose agreement is
symmetric, `calculateAgreement(pubB, privA) = calculateAgreement(pubA, privB)`,
the two derived keys are equal: `makeSymmetricKey(privA, pubB)
= makeSymmetricKey(privB, pubA)`. The agreement is called with the public key
first and the private key second. -/
theorem makeSymmetricKey_commutes (C : SignalCurve ε) (H : NodeHmac)
    (privA pubA privB pubB : Bytes)
    (hsym : C.calculateAgreement pubB privA = C.calculateAgreement pubA privB) :
    makeSymmetricKey C H privA pubB = makeSymmetricKey C H privB pubA ∧
    makeSymmetricKey C H privA pubB
      = (C.calculateAgreement pubB privA).map (H.hmacDigest "sha256" (utf8Encode "LOKI")) ∧
    makeSymmetricKey C H privB pubA
      = (C.calculateAgreement pubA privB).map (H.hmacDigest "sha256" (utf8Encode "LOKI")) := by
  have hgen : ∀ priv pub, makeSymmetricKey C H priv pub
      = (C.calculateAgreement pub priv).map (H.hmacDigest "sha256" (utf8Encode "LOKI")) := by
    intro priv pub
    unfold makeSymmetricKey
    cases C.calculateAgreement pub priv <;> rfl
  exact ⟨by rw [hgen, hgen, hsym], hgen privA pubB, hgen privB pubA⟩

/-- C11 (witness). Two key pairs on the stand-in curve, where the agreement
with the roles of the keys exchanged is another value. -/
theorem makeSymmetricKey_commutes_sample :
    toyCurve.calculateAgreement bobPub alicePriv = .ok (List.replicate 32 138) ∧
    toyCurve.calculateAgreement alicePub bobPriv = .ok (List.replicate 32 138) ∧
    toyCurve.calculateAgreement alicePriv bobPub = .ok (List.replicate 32 147) ∧
    makeSymmetricKey toyCurve toyHmac alicePriv bobPub
      = makeSymmetricKey toyCurve toyHmac bobPriv alicePub ∧
    makeSymmetricKey toyCurve toyHmac alicePriv bobPub
      = .ok ((List.range 32).map fun j => 145 + j) :=
  ⟨rfl, rfl, rfl,
    (makeSymmetricKey_commutes toyCurve toyHmac alicePriv alicePub bobPriv bobPub rfl).1,
    rfl⟩

/-- C14 (counterexample). The codec A envelope of "hello" with bit 2 of byte 3,
a byte of the iv, flipped: the library has no integrity check, takes the
changed iv, and `DHDecrypt` returns the text "helho" instead of failing. -/
theorem DHDecrypt_accepts_flipped_iv :
    toySignal.encrypt zeroKey (utf8Encode "hello") sampleIv = .ok helloCiphertextA ∧
    DHDecrypt toySignal zeroKey (sampleIv ++ helloCiphertextA) = .ok (utf8Encode "hello") ∧
    flipBit (sampleIv ++ helloCiphertextA) 3 2
      = [0, 1, 2, 7, 4, 5, 6, 7, 8, 9, 10, 11, 12, 13, 14, 15] ++ helloCiphertextA ∧
    DHDecrypt toySignal zeroKey (flipBit (sampleIv ++ helloCiphertextA) 3 2)
      = .ok (utf8Encode "helho") :=
  ⟨rfl, rfl, rfl, rfl⟩

/-- C14 (amended). Tampering reaches the primitive. Let
`env = nonce ++ ciphertext ++ tag` be a codec B envelope (12-byte nonce,
16-byte tag) and flip one bit of it at a position `p` from 12 on. Then
`decryptGCM` hands AES-256-GCM the same nonce and either the ciphertext with
that bit flipped and the same tag, or the same ciphertext and the tag with that
bit flipped; the pair differs from the one that was framed; and when
AES-256-GCM rejects it, `decryptGCM` fails with that error. For a codec A
envelope `iv ++ c` (16-byte iv) and any position `q`, `DHDecrypt` calls the
library with the iv or the ciphertext changed by that bit, and its outcome is
the outcome of that call: it fails when, and only when, the library rejects
them. -/
theorem tamper_reaches_primitive (N : NodeCrypto ε γ δ) (S : SignalCrypto ε)
    (k nonce ciphertext tag iv c : Bytes) (p j q l : Nat) (eB : ε)
    (hn : nonce.length = NONCE_LENGTH) (ht : tag.length = TAG_LENGTH)
    (hiv : iv.length = IV_LENGTH)
    (hp : 12 ≤ p) (hp2 : p < (nonce ++ ciphertext ++ tag).length)
    (hq : q < (iv ++ c).length)
    (hB : ∀ ciphertext2 tag2,
      (ciphertext2 = flipBit ciphertext (p - 12) j ∧ tag2 = tag ∧ p < 12 + ciphertext.length) ∨
      (ciphertext2 = ciphertext ∧ tag2 = flipBit tag (p - 12 - ciphertext.length) j ∧
        12 + ciphertext.length ≤ p) →
      aes256gcmDecrypt N k nonce ciphertext2 tag2 = .error eB) :
    (∃ ciphertext2 tag2,
      gcmSlices (flipBit (nonce ++ ciphertext ++ tag) p j) = (nonce, ciphertext2, tag2) ∧
      (ciphertext2, tag2) ≠ (ciphertext, tag) ∧
      ((ciphertext2 = flipBit ciphertext (p - 12) j ∧ tag2 = tag ∧ p < 12 + ciphertext.length) ∨
       (ciphertext2 = ciphertext ∧ tag2 = flipBit tag (p - 12 - ciphertext.length) j ∧
        12 + ciphertext.length ≤ p))) ∧
    decryptGCM N k (flipBit (nonce ++ ciphertext ++ tag) p j) = .error eB ∧
    (∃ iv2 c2,
      slice (flipBit (iv ++ c) q l) 0 IV_LENGTH = iv2 ∧
      sliceFrom (flipBit (iv ++ c) q l) IV_LENGTH = c2 ∧
      (iv2, c2) ≠ (iv, c) ∧
      ((iv2 = flipBit iv q l ∧ c2 = c ∧ q < 16) ∨
       (iv2 = iv ∧ c2 = flipBit c (q - 16) l ∧ 16 ≤ q)) ∧
      DHDecrypt S k (flipBit (iv ++ c) q l) = S.decrypt k c2 iv2) := by
  have hn12 : nonce.length = 12 := hn
  have ht16 : tag.length = 16 := ht
  have hiv16 : iv.length = 16 := hiv
  simp only [List.length_append] at hp2 hq
  -- codec B
  have hBpart : ∃ ciphertext2 tag2,
      flipBit (nonce ++ ciphertext ++ tag) p j = nonce ++ ciphertext2 ++ tag2 ∧
      tag2.length = 16 ∧
      (ciphertext2, tag2) ≠ (ciphertext, tag) ∧
      ((ciphertext2 = flipBit ciphertext (p - 12) j ∧ tag2 = tag ∧ p < 12 + ciphertext.length) ∨
       (ciphertext2 = ciphertext ∧ tag2 = flipBit tag (p - 12 - ciphertext.length) j ∧
        12 + ciphertext.length ≤ p)) := by
    have e1 : flipBit (nonce ++ ciphertext ++ tag) p j
        = nonce ++ flipBit (ciphertext ++ tag) (p - 12) j := by
      rw [List.append_assoc, flipBit_append_right nonce _ p j (by omega), hn12]
    by_cases hc : p < 12 + ciphertext.length
    · refine ⟨flipBit ciphertext (p - 12) j, tag, ?_, ht16, ?_, Or.inl ⟨rfl, rfl, hc⟩⟩
      · rw [e1, flipBit_append_left ciphertext tag (p - 12) j (by omega), List.append_assoc]
      · intro h
        exact flipBit_ne ciphertext (p - 12) j (by omega) (congrArg Prod.fst h)
    · refine ⟨ciphertext, flipBit tag (p - 12 - ciphertext.length) j, ?_, ?_, ?_,
        Or.inr ⟨rfl, rfl, by omega⟩⟩
      · rw [e1, flipBit_append_right ciphertext tag (p - 12) j (by omega), List.append_assoc]
      · rw [flipBit_length, ht16]
      · intro h
        exact flipBit_ne tag (p - 12 - ciphertext.length) j (by omega) (congrArg Prod.snd h)
  -- codec A
  have hApart : ∃ iv2 c2,
      flipBit (iv ++ c) q l = iv2 ++ c2 ∧ iv2.length = 16 ∧
      (iv2, c2) ≠ (iv, c) ∧
      ((iv2 = flipBit iv q l ∧ c2 = c ∧ q < 16) ∨
       (iv2 = iv ∧ c2 = flipBit c (q - 16) l ∧ 16 ≤ q)) := by
    by_cases hc : q < 16
    · refine ⟨flipBit iv q l, c, ?_, ?_, ?_, Or.inl ⟨rfl, rfl, hc⟩⟩
      · rw [flipBit_append_left iv c q l (by omega)]
      · rw [flipBit_length, hiv16]
      · intro h
        exact flipBit_ne iv q l (by omega) (congrArg Prod.fst h)
    · refine ⟨iv, flipBit c (q - 16) l, ?_, hiv16, ?_, Or.inr ⟨rfl, rfl, by omega⟩⟩
      · rw [flipBit_append_right iv c q l (by omega), hiv16]
      · intro h
        exact flipBit_ne c (q - 16) l (by omega) (congrArg Prod.snd h)
  obtain ⟨ct2, tag2, hflip, htag2, hne, hcase⟩ := hBpart
  obtain ⟨iv2, c2, hflipA, hiv2, hneA, hcaseA⟩ := hApart
  have hsl : gcmSlices (flipBit (nonce ++ ciphertext ++ tag) p j) = (nonce, ct2, tag2) := by
    rw [hflip]; exact gcmSlices_framed nonce ct2 tag2 hn htag2
  refine ⟨⟨ct2, tag2, hsl, hne, hcase⟩, ?_, ⟨iv2, c2, ?_, ?_, hneA, hcaseA, ?_⟩⟩
  · rw [decryptGCM_eq, hsl]
    simp only [hB ct2 tag2 hcase]
    rfl
  · rw [hflipA]; exact slice_iv iv2 c2 hiv2
  · rw [hflipA]; exact sliceFrom_iv iv2 c2 hiv2
  · rw [hflipA, DHDecrypt_framed S k iv2 c2 hiv2]

/-- C14 (witness). The envelopes of "hello" under the stand-in libraries, with
bit 3 of byte 14 (in the ciphertext of codec B) and bit 2 of byte 9 (in the iv
of codec A, under the padding) flipped: both decrypt functions fail with the
error of the library. -/
theorem tamper_reaches_primitive_hello :
    decryptGCM toyGcm zeroKey (sampleNonce ++ helloCiphertext ++ helloTag) = .ok "hello" ∧
    flipBit (sampleNonce ++ helloCiphertext ++ helloTag) 14 3
      = sampleNonce ++ [182, 179, 178, 186, 189] ++ helloTag ∧
    decryptGCM toyGcm zeroKey (flipBit (sampleNonce ++ helloCiphertext ++ helloTag) 14 3)
      = .error .unableToAuthenticate ∧
    toySignal.decrypt zeroKey helloCiphertextA (flipBit sampleIv 9 2) = .error .badDecrypt ∧
    ∃ iv2 c2,
      slice (flipBit (sampleIv ++ helloCiphertextA) 9 2) 0 IV_LENGTH = iv2 ∧
      sliceFrom (flipBit (sampleIv ++ helloCiphertextA) 9 2) IV_LENGTH = c2 ∧
      (iv2, c2) ≠ (sampleIv, helloCiphertextA) ∧
      ((iv2 = flipBit sampleIv 9 2 ∧ c2 = helloCiphertextA ∧ 9 < 16) ∨
       (iv2 = sampleIv ∧ c2 = flipBit helloCiphertextA (9 - 16) 2 ∧ 16 ≤ 9)) ∧
      DHDecrypt toySignal zeroKey (flipBit (sampleIv ++ helloCiphertextA) 9 2)
        = toySignal.decrypt zeroKey c2 iv2 :=
  have h := tamper_reaches_primitive toyGcm toySignal zeroKey sampleNonce helloCiphertext
    helloTag sampleIv helloCiphertextA 14 3 9 2 .unableToAuthenticate rfl rfl rfl
    (by decide) (by decide) (by decide)
    (by
      intro ciphertext2 tag2 h
      rcases h with ⟨h1, h2, _⟩ | ⟨_, _, h3⟩
      · subst h1; subst h2; rfl
      · exact absurd h3 (by decide))
  ⟨rfl, rfl, h.2.1, rfl, h.2.2⟩

/-- C16. `decryptGCM` returns decoded text. For every key, 12-byte nonce and
plaintext `p` that is valid UTF-8 (the encoding of a text `s`): when
AES-256-GCM encrypts `p` to a ciphertext and a 16-byte tag and decrypts them
back, `update` putting out `p` and `final` nothing, then `decryptGCM` on the
envelope of `encryptGCM` returns the string that UTF-8 decoding makes of `p`,
and the UTF-8 encoding of that string is `p`. -/
theorem decryptGCM_returns_decoded_text (N : NodeCrypto ε γ δ)
    (k nonce ciphertext tag p : Bytes) (s : String)
    (hn : nonce.length = NONCE_LENGTH) (ht : tag.length = TAG_LENGTH)
    (hp : utf8Encode s = p)
    (henc : aes256gcmEncrypt N k nonce p = .ok (ciphertext, tag))
    (hdec : aes256gcmDecrypt N k nonce ciphertext tag = .ok (p, [])) :
    ∃ env text, encryptGCM N k p nonce = .ok env ∧ decryptGCM N k env = .ok text ∧
      text = decoderWrite p ∧ utf8Encode text = p := by
  refine ⟨nonce ++ ciphertext ++ tag, decoderWrite p, ?_, ?_, rfl, ?_⟩
  · rw [encryptGCM_eq, henc]; rfl
  · rw [decryptGCM_eq, gcmSlices_framed nonce ciphertext tag hn ht]
    simp only [hdec, Except.map, bufferToString_nil]
    simp
  · rw [← hp, decoderWrite_utf8Encode]

/-- C16 (witness). The text "é€", of a 2-byte and a 3-byte character. -/
theorem decryptGCM_returns_decoded_text_euro :
    utf8Encode "é€" = [195, 169, 226, 130, 172] ∧
    decryptGCM toyGcm zeroKey (sampleNonce ++ euroCiphertext ++ euroTag) = .ok "é€" ∧
    ∃ env text, encryptGCM toyGcm zeroKey [195, 169, 226, 130, 172] sampleNonce = .ok env ∧
      decryptGCM toyGcm zeroKey env = .ok text ∧
      text = decoderWrite [195, 169, 226, 130, 172] ∧
      utf8Encode text = [195, 169, 226, 130, 172] :=
  ⟨rfl, rfl,
    decryptGCM_returns_decoded_text toyGcm zeroKey sampleNonce euroCiphertext euroTag
      [195, 169, 226, 130, 172] "é€" rfl rfl rfl rfl rfl⟩

/-! ## Message signature: claims -/

/-- C12 (counterexample). A note with a quote and a message whose `reply_to`
is the number 0: the field is there, and the signed string is "hi1007bobq1",
without the "0" of `reply_to` between the quote and the version. -/
theorem sigString_reply_to_zero :
    quotingNote.quote = some ⟨.number 7, .string "bob", " q "⟩ ∧
    replyZeroMessage.reply_to = .number 0 ∧
    replyZeroMessage.reply_to.toJsString = "0" ∧
    sigString (.number 1) quotingNote replyZeroMessage = "hi1007bobq1" ∧
    sigString (.number 1) quotingNote replyZeroMessage
      ≠ "hi" ++ "100" ++ "7" ++ "bob" ++ "q" ++ "0" ++ "1" :=
  ⟨rfl, rfl, rfl, rfl, by decide⟩

/-- C12 (amended). The string that `getSigData` signs is, in this order and
with nothing between the parts: the trimmed `message.text`, the string form of
`note.timestamp` (decimal digits for a number), then, only under a quote,
`quote.id`, `quote.author`, the trimmed `quote.text` and, when
`message.reply_to` is truthy (there, and not `0`, `""`, `false` or `null`),
`reply_to`; then `sigVersion`. `getSigData` passes the UTF-8 bytes of this
string to `calculateSignature` and returns the signature in lower-case
hexadecimal. For timestamp 100, text " hi " and version 1 the string is
"hi1001". -/
theorem getSigData_payload (S : SignalSignature ε) (sigVer : JsValue) (priv sig : Bytes)
    (note : NoteValue) (message : AdnMessage)
    (hsig : S.calculateSignature priv (utf8Encode (sigString sigVer note message)) = .ok sig) :
    sigString sigVer note message
      = jsTrim message.text ++ note.timestamp.toJsString
          ++ (match note.quote with
              | none => ""
              | some q =>
                q.id.toJsString ++ q.author.toJsString ++ jsTrim q.text
                  ++ (if message.reply_to.truthy then message.reply_to.toJsString else ""))
          ++ sigVer.toJsString ∧
    (∀ t : Int, (JsValue.number t).toJsString = numberToString t) ∧
    getSigData S sigVer priv note message = .ok (bufferToHex sig) ∧
    (∀ ch ∈ (bufferToHex sig).data, ch ∈ "0123456789abcdef".data) ∧
    sigString (.number 1) plainNote plainMessage = "hi1001" ∧
    utf8Encode "hi1001" = [104, 105, 49, 48, 48, 49] := by
  refine ⟨sigString_eq sigVer note message, fun _ => rfl, ?_, ?_, rfl, rfl⟩
  · rw [getSigData_eq, hsig]; rfl
  · exact hexChars_lowercase sig

/-- C12 (witness). The scenario of the specification under the stand-in
signature, and a quoting note with a reply. -/
theorem getSigData_payload_sample :
    toySignature.calculateSignature samplePriv (utf8Encode (sigString (.number 1) plainNote
      plainMessage)) = .ok [240, 104, 105, 49, 48, 48, 49] ∧
    getSigData toySignature (.number 1) samplePriv plainNote plainMessage
      = .ok "f0686931303031" ∧
    sigString (.number 1) quotingNote replyMessage = "hi1007bobq51" :=
  ⟨rfl,
    (getSigData_payload toySignature (.number 1) samplePriv [240, 104, 105, 49, 48, 48, 49]
      plainNote plainMessage rfl).2.2.1,
    rfl⟩

/-- C13 (counterexample). The timestamp as the number 100 and as the string
"100": the field has changed, the signed string is "hi1001" both times, and so
is the result of `getSigData`, under every signing primitive and key. -/
theorem getSigData_blind_to_timestamp_kind :
    JsValue.number 100 ≠ JsValue.string "100" ∧
    sigString (.number 1) ⟨.number 100, none⟩ plainMessage = "hi1001" ∧
    sigString (.number 1) ⟨.string "100", none⟩ plainMessage = "hi1001" ∧
    getSigData toySignature (.number 1) samplePriv ⟨.number 100, none⟩ plainMessage
      = .ok "f0686931303031" ∧
    getSigData toySignature (.number 1) samplePriv ⟨.string "100", none⟩ plainMessage
      = .ok "f0686931303031" :=
  ⟨by decide, rfl, rfl, rfl, rfl⟩

/-- C13 (amended). Sensitivity of the signature. Take two inputs under one key
that differ in one field only: in the trimmed `message.text`, or in the string
form of `note.timestamp`, or in the string form of `sigVersion`; two different
safe integers have different string forms. Then the signed strings differ and
so do their UTF-8 bytes, which are what the signing primitive gets; and when
the primitive returns the byte strings `sig1` and `sig2` for them, `getSigData`
returns their hexadecimal forms, equal only if `sig1` and `sig2` are equal. On
equal inputs the result is the same, `getSigData` being a function of its
inputs and of the primitive. -/
theorem getSigData_sensitive (S : SignalSignature ε) (priv sig1 sig2 : Bytes)
    (v1 v2 : JsValue) (n1 n2 : NoteValue) (m1 m2 : AdnMessage)
    (hchange :
      (v2 = v1 ∧ n2 = n1 ∧ m2.reply_to = m1.reply_to ∧ jsTrim m2.text ≠ jsTrim m1.text) ∨
      (v2 = v1 ∧ m2 = m1 ∧ n2.quote = n1.quote ∧
        n2.timestamp.toJsString ≠ n1.timestamp.toJsString) ∨
      (n2 = n1 ∧ m2 = m1 ∧ v2.toJsString ≠ v1.toJsString))
    (hs1 : S.calculateSignature priv (utf8Encode (sigString v1 n1 m1)) = .ok sig1)
    (hs2 : S.calculateSignature priv (utf8Encode (sigString v2 n2 m2)) = .ok sig2)
    (hb1 : ∀ b ∈ sig1, b < 256) (hb2 : ∀ b ∈ sig2, b < 256) :
    (∀ a b : Int, a.natAbs < 2 ^ 53 → b.natAbs < 2 ^ 53 → a ≠ b →
      (JsValue.number a).toJsString ≠ (JsValue.number b).toJsString) ∧
    sigString v1 n1 m1 ≠ sigString v2 n2 m2 ∧
    utf8Encode (sigString v1 n1 m1) ≠ utf8Encode (sigString v2 n2 m2) ∧
    getSigData S v1 priv n1 m1 = .ok (bufferToHex sig1) ∧
    getSigData S v2 priv n2 m2 = .ok (bufferToHex sig2) ∧
    (getSigData S v1 priv n1 m1 = getSigData S v2 priv n2 m2 ↔ sig1 = sig2) ∧
    (v1 = v2 → n1 = n2 → m1 = m2 →
      getSigData S v1 priv n1 m1 = getSigData S v2 priv n2 m2) := by
  have hne : sigString v1 n1 m1 ≠ sigString v2 n2 m2 := by
    intro h
    rw [sigString_eq, sigString_eq] at h
    rcases hchange with ⟨hv, hn, hr, ht⟩ | ⟨hv, hm, hq, hts⟩ | ⟨hn, hm, hver⟩
    · rw [hv, hn, hr] at h
      exact ht (string_append_right_cancel (string_append_right_cancel
        (string_append_right_cancel h))).symm
    · rw [hv, hm, hq] at h
      exact hts (string_append_left_cancel (string_append_right_cancel
        (string_append_right_cancel h))).symm
    · rw [hn, hm] at h
      exact hver (string_append_left_cancel h).symm
  have hg1 : getSigData S v1 priv n1 m1 = .ok (bufferToHex sig1) := by
    rw [getSigData_eq, hs1]; rfl
  have hg2 : getSigData S v2 priv n2 m2 = .ok (bufferToHex sig2) := by
    rw [getSigData_eq, hs2]; rfl
  refine ⟨fun a b _ _ hab h => hab (numberToString_injective h), hne,
    fun h => hne (utf8Encode_injective h), hg1, hg2, ?_, ?_⟩
  · rw [hg1, hg2]
    constructor
    · intro h
      exact bufferToHex_injective sig1 sig2 hb1 hb2 (by injection h)
    · intro h
      rw [h]
  · intro hv hn hm
    rw [hv, hn, hm]

/-- C13 (witness). Under the stand-in signature: the text " hi " against
" ho ", the timestamp 100 against 101, and the version 1 against 2. -/
theorem getSigData_sensitive_sample :
    (getSigData toySignature (.number 1) samplePriv plainNote plainMessage
        = .ok "f0686931303031" ∧
      getSigData toySignature (.number 1) samplePriv plainNote ⟨" ho ", .undefined⟩
        = .ok "f0686f31303031") ∧
    (getSigData toySignature (.number 1) samplePriv ⟨.number 101, none⟩ plainMessage
        = .ok "f0686931303131" ∧
      sigString (.number 1) plainNote plainMessage
        ≠ sigString (.number 1) ⟨.number 101, none⟩ plainMessage) ∧
    (getSigData toySignature (.number 2) samplePriv plainNote plainMessage
        = .ok "f0686931303032" ∧
      sigString (.number 1) plainNote plainMessage
        ≠ sigString (.number 2) plainNote plainMessage) :=
  have ht := getSigData_sensitive toySignature samplePriv [240, 104, 105, 49, 48, 48, 49]
    [240, 104, 111, 49, 48, 48, 49] (.number 1) (.number 1) plainNote plainNote plainMessage
    ⟨" ho ", .undefined⟩ (Or.inl ⟨rfl, rfl, rfl, by decide⟩)
    rfl rfl (by decide) (by decide)
  have hn := getSigData_sensitive toySignature samplePriv [240, 104, 105, 49, 48, 48, 49]
    [240, 104, 105, 49, 48, 49, 49] (.number 1) (.number 1) plainNote ⟨.number 101, none⟩
    plainMessage plainMessage (Or.inr (Or.inl ⟨rfl, rfl, rfl, by decide⟩))
    rfl rfl (by decide) (by decide)
  have hv := getSigData_sensitive toySignature samplePriv [240, 104, 105, 49, 48, 48, 49]
    [240, 104, 105, 49, 48, 48, 50] (.number 1) (.number 2) plainNote plainNote
    plainMessage plainMessage (Or.inr (Or.inr ⟨rfl, rfl, by decide⟩))
    rfl rfl (by decide) (by decide)
  ⟨⟨ht.2.2.2.1, ht.2.2.2.2.1⟩, ⟨hn.2.2.2.2.1, hn.2.1⟩, ⟨hv.2.2.2.2.1, hv.2.1⟩⟩

/-- C15 (counterexample). A quote is there and `reply_to` is there, as the
number 0: right after the trimmed quote text "x" comes the version "2", not
the "0" of `reply_to`. -/
theorem sigString_skips_reply_to_zero :
    (AdnMessage.mk "yo" (.number 0)).reply_to ≠ .undefined ∧
    (AdnMessage.mk "yo" (.number 0)).reply_to ≠ .null ∧
    sigString (.number 2) ⟨.number 5, some ⟨.number 9, .string "al", "x "⟩⟩ ⟨"yo", .number 0⟩
      = "yo59alx2" ∧
    sigString (.number 2) ⟨.number 5, some ⟨.number 9, .string "al", "x "⟩⟩ ⟨"yo", .number 0⟩
      ≠ "yo59al" ++ "x" ++ "0" ++ "2" :=
  ⟨by decide, by decide, rfl, by decide⟩

/-- C15 (amended). Under a note without quote the signed string does not
depend on `message.reply_to`. Under a note with a quote: when `reply_to` is
truthy its string form stands right after the trimmed `quote.text` and right
before `sigVersion`; when it is falsy (missing, `null`, `0`, `""`, `false`)
the version stands right after the trimmed `quote.text`. -/
theorem reply_to_signed_under_quote (sigVer : JsValue) (bare quoting : NoteValue)
    (q : Quote) (message silent : AdnMessage) (r1 r2 : JsValue)
    (hbare : bare.quote = none) (hquote : quoting.quote = some q)
    (hr : message.reply_to.truthy = true) (hs : silent.reply_to.truthy = false) :
    sigString sigVer bare ⟨message.text, r1⟩ = sigString sigVer bare ⟨message.text, r2⟩ ∧
    sigString sigVer quoting message
      = jsTrim message.text ++ quoting.timestamp.toJsString ++ q.id.toJsString
          ++ q.author.toJsString ++ jsTrim q.text ++ message.reply_to.toJsString
          ++ sigVer.toJsString ∧
    sigString sigVer quoting silent
      = jsTrim silent.text ++ quoting.timestamp.toJsString ++ q.id.toJsString
          ++ q.author.toJsString ++ jsTrim q.text ++ sigVer.toJsString := by
  refine ⟨?_, ?_, ?_⟩
  · rw [sigString_eq, sigString_eq, hbare]
  · rw [sigString_eq, hquote]
    simp only [hr, if_true, String.append_assoc]
  · rw [sigString_eq, hquote]
    simp only [hs, Bool.false_eq_true, if_false, String.append_assoc, String.append_empty]

/-- C15 (witness). The scenario note without quote, and the quoting note with
the replies 5 and 0. -/
theorem reply_to_signed_under_quote_sample :
    sigString (.number 1) plainNote ⟨" hi ", .number 5⟩
      = sigString (.number 1) plainNote ⟨" hi ", .number 6⟩ ∧
    sigString (.number 1) quotingNote replyMessage = "hi1007bobq51" ∧
    sigString (.number 1) quotingNote replyZeroMessage
      = jsTrim " hi " ++ "100" ++ "7" ++ "bob" ++ jsTrim " q " ++ "1" :=
  have h := reply_to_signed_under_quote (.number 1) plainNote quotingNote
    ⟨.number 7, .string "bob", " q "⟩ replyMessage replyZeroMessage (.number 5) (.number 6)
    rfl rfl rfl rfl
  ⟨h.1, rfl, h.2.2⟩

/-- C17. The signed string is not injective in its fields. The text "a1" with
timestamp 2 and the text "a" with timestamp 12, both under version 1 and
without quote, differ in trimmed text and in timestamp and give the same
string "a121", hence the same bytes to sign and, under any signing primitive
and key, the same result of `getSigData`. -/
theorem sigString_not_injective (S : SignalSignature ε) (priv : Bytes) :
    jsTrim "a1" ≠ jsTrim "a" ∧ (JsValue.number 2) ≠ (JsValue.number 12) ∧
    sigString (.number 1) ⟨.number 2, none⟩ ⟨"a1", .undefined⟩ = "a121" ∧
    sigString (.number 1) ⟨.number 12, none⟩ ⟨"a", .undefined⟩ = "a121" ∧
    utf8Encode (sigString (.number 1) ⟨.number 2, none⟩ ⟨"a1", .undefined⟩)
      = utf8Encode (sigString (.number 1) ⟨.number 12, none⟩ ⟨"a", .undefined⟩) ∧
    getSigData S (.number 1) priv ⟨.number 2, none⟩ ⟨"a1", .undefined⟩
      = getSigData S (.number 1) priv ⟨.number 12, none⟩ ⟨"a", .undefined⟩ ∧
    getSigData toySignature (.number 1) samplePriv ⟨.number 2, none⟩ ⟨"a1", .undefined⟩
      = .ok "f061313231" ∧
    getSigData toySignature (.number 1) samplePriv ⟨.number 12, none⟩ ⟨"a", .undefined⟩
      = .ok "f061313231" := by
  refine ⟨by decide, by decide, rfl, rfl, rfl, ?_, rfl, rfl⟩
  rw [getSigData_eq, getSigData_eq]
  rfl

end LokiCrypt
